import Mathlib

/-!
Shallow embedding of the freelancer-helper-api pipeline
(src/lead_generator.py, src/http_client.py, src/rate_limiter.py,
src/sqlite_cache.py, src/storage.py, src/reviews_api.py, src/users_api.py,
src/normalize.py, src/oauth.py, src/supabase_storage.py) together with
proofs of the specification claims.

JSON values are modelled without floating-point numbers (no claim depends
on float payloads).  Python `dict` objects are association lists with
unique keys; `dict.get` on a non-dict raises in Python, while the model's
lookup returns the defensive default - pipeline-level theorems therefore
quantify over well-formed worlds whose payloads are objects where this
matters.
-/

inductive Json : Type where
  | null : Json
  | bool : Bool → Json
  | int : Int → Json
  | str : String → Json
  | arr : List Json → Json
  | obj : List (String × Json) → Json
deriving Repr

namespace Json

def isObj : Json → Bool
  | .obj _ => true
  | _ => false

def isArr : Json → Bool
  | .arr _ => true
  | _ => false

def isNull : Json → Bool
  | .null => true
  | _ => false

def isStr : Json → Bool
  | .str _ => true
  | _ => false

def isNullOrStr (j : Json) : Bool := j.isNull || j.isStr

/-- Key lookup in an object; `none` when the key is absent or the value is
not a dict.  (Python's `dict.get` raises on non-dicts; callers in the source
guard with `isinstance` where it matters.) -/
def get : Json → String → Option Json
  | .obj kvs, k => (kvs.find? (fun kv => kv.1 == k)).map (fun kv => kv.2)
  | _, _ => none

/-- Python `d.get(k)`: `None` both for a missing key and for a stored null. -/
def pyGet (j : Json) (k : String) : Json :=
  match j.get k with
  | some v => v
  | none => Json.null

/-- Python truthiness of a JSON value. -/
def truthy : Json → Bool
  | .null => false
  | .bool b => b
  | .int n => n != 0
  | .str s => s != ""
  | .arr xs => !xs.isEmpty
  | .obj kvs => !kvs.isEmpty

end Json

/-- Python `x or y` (value-returning disjunction on truthiness). -/
def pyOr (a b : Json) : Json := if a.truthy then a else b

/-- Python `int(x)` restricted to the JSON model: ints pass through, bools
map to 0/1, strings are parsed (stripping whitespace; Python additionally
accepts `+` signs and digit underscores, which no pipeline value uses), and
everything else raises (`none`). -/
def pyToInt : Json → Option Int
  | .int n => some n
  | .bool b => some (if b then 1 else 0)
  | .str s => s.trim.toInt?
  | _ => none

/-! ## src/storage.py -/

/-- State-file contents as seen by `load_json`: the file may be missing
(`FileNotFoundError`), unreadable (`json.JSONDecodeError`), or hold a parsed
JSON document. -/
inductive FileContent : Type where
  | missing : FileContent
  | corrupt : FileContent
  | valid : Json → FileContent
deriving Repr

/-- `storage.load_json`: returns the parsed document, or (a copy of) the
supplied default when the file is missing or corrupt. -/
def load_json (f : FileContent) (dflt : Json) : Json :=
  match f with
  | .valid j => j
  | .missing => dflt
  | .corrupt => dflt

/-! ## src/reviews_api.py -/

/-- `reviews_api.extract_reviews`: envelope decoding of a reviews payload. -/
def extract_reviews (payload : Json) : List Json :=
  match (payload.pyGet "result").get "reviews" with
  | some (.arr rs) => rs
  | _ =>
    match payload.get "reviews" with
    | some (.arr rs) => rs
    | _ => []

/-- Reviewer id of one review object: body of the loop of
`extract_reviewers_ids` in the source (`from_user_id`, falling back to
`from_user`, resolving embedded objects through `id` / `user_id`); `none`
when the review is skipped (non-dict, missing id, or `int()` failure). -/
def reviewerIdOf (r : Json) : Option Int :=
  if !r.isObj then none
  else
    let fu0 := if (r.pyGet "from_user_id").isNull then r.pyGet "from_user"
               else r.pyGet "from_user_id"
    let fu := if fu0.isObj then pyOr (fu0.pyGet "id") (fu0.pyGet "user_id") else fu0
    if fu.isNull then none else pyToInt fu

/-- The reviewer ids accumulated in order of first appearance; the Python
`set` built by `extract_reviewer_ids` is this list's underlying set. -/
def reviewerIdList (payload : Json) : List Int :=
  (extract_reviews payload).foldl
    (fun acc r =>
      match reviewerIdOf r with
      | some i => if i ∈ acc then acc else acc ++ [i]
      | none => acc) []

/-- `reviews_api.extract_reviewer_ids`: the Python `set` of reviewer ids. -/
def extract_reviewer_ids (payload : Json) : Finset Int :=
  (reviewerIdList payload).toFinset

/-- `sorted(extract_reviewer_ids(reviews_payload))` as used at
src/lead_generator.py line 86: Python's `sorted` on a duplicate-free set is
its ascending enumeration. -/
def sorted_reviewer_ids (payload : Json) : List Int :=
  (reviewerIdList payload).insertionSort (· ≤ ·)

/-! ## src/users_api.py -/

/-- `users_api.extract_users`: envelope decoding of a directory page. -/
def extract_users (payload : Json) : List Json :=
  match (payload.pyGet "result").get "users" with
  | some (.arr us) => us
  | _ =>
    match payload.get "users" with
    | some (.arr us) => us
    | _ => []

/-- `users_api.extract_user_id`: `id` falling back to `user_id`, converted
with `int()`; `none` on absence or conversion failure.  (Python raises on a
non-dict argument; the pipeline guard is the well-formed-world hypothesis.) -/
def extract_user_id (u : Json) : Option Int :=
  if !u.isObj then none
  else
    let uid := if (u.pyGet "id").isNull then u.pyGet "user_id" else u.pyGet "id"
    if uid.isNull then none else pyToInt uid

/-- Insertion-ordered dict update (`out[uid] = u`): an existing key keeps
its position, a new key is appended. -/
def dictInsert (m : List (Int × Json)) (k : Int) (v : Json) : List (Int × Json) :=
  if m.any (fun p => p.1 == k) then
    m.map (fun p => if p.1 == k then (k, v) else p)
  else m ++ [(k, v)]

def dictLookup (m : List (Int × Json)) (k : Int) : Option Json :=
  (m.find? (fun p => p.1 == k)).map (fun p => p.2)

/-- `users_api.extract_users_map`: normalise a batch-users payload into an
insertion-ordered id-to-user dict. -/
def extract_users_map (payload : Json) : List (Int × Json) :=
  let users :=
    match (payload.pyGet "result").get "users" with
    | some (.arr us) => us
    | _ =>
      match payload.get "users" with
      | some (.arr us) => us
      | _ => []
  users.foldl
    (fun out u =>
      if !u.isObj then out
      else
        match extract_user_id u with
        | some uid => dictInsert out uid u
        | none => out) []

/-! ## src/normalize.py -/

/-- `normalize._get`: nested dict walk, `None` as soon as a level is not a
dict or a key is absent. -/
def getPath (d : Json) : List String → Json
  | [] => d
  | p :: rest =>
    match d with
    | .obj _ => getPath (d.pyGet p) rest
    | _ => Json.null

/-- `normalize.minimize_user`: project a fetched user object to the cached
subset, dropping None-only containers exactly as the source does. -/
def minimize_user (user_obj : Json) : Json :=
  let country := getPath user_obj ["location", "country", "name"]
  let city := getPath user_obj ["location", "city"]
  let statusObj := getPath user_obj ["status"]
  let tz := getPath user_obj ["timezone"]
  let status := if statusObj.isObj then statusObj else Json.null
  let tzv := if tz.isObj then tz else Json.null
  let location :=
    if country.isNull && city.isNull then Json.null
    else Json.obj [("country", country), ("city", city)]
  Json.obj
    ([("username", user_obj.pyGet "username"),
      ("closed", user_obj.pyGet "closed"),
      ("registration_date", user_obj.pyGet "registration_date"),
      ("display_name", user_obj.pyGet "display_name")]
     ++ (if location.isNull then [] else [("location", location)])
     ++ (if status.isNull then [] else [("status", status)])
     ++ [("public_name", user_obj.pyGet "public_name")]
     ++ (if tzv.isNull then [] else [("timezone", tzv)])
     ++ [("registration_completed", user_obj.pyGet "registration_completed")])

/-- Environment for the datetime library calls in `to_supabase_client_row`:
`isoOfEpoch` models `datetime.fromtimestamp(_, utc).replace(tzinfo=None)
.isoformat(sep=" ")` (`none` when `fromtimestamp` raises for an
out-of-range epoch), `nowIso` models the `datetime.now` fallback string. -/
structure TimeEnv : Type where
  isoOfEpoch : Int → Option String
  nowIso : String

/-- `normalize.to_supabase_client_row`: map a minimized user to the
`public.clients` row, with the `or`/`str(user_id)` fallbacks for the
NOT NULL text columns. -/
def to_supabase_client_row (env : TimeEnv) (user_id : Int) (m : Json) : Json :=
  let username0 := if m.isObj then pyOr (m.pyGet "username") (Json.str "") else Json.str ""
  let display0 := if m.isObj then pyOr (m.pyGet "display_name") (Json.str "") else Json.str ""
  let public0 := if m.isObj then pyOr (m.pyGet "public_name") (Json.str "") else Json.str ""
  let display1 := if !display0.truthy then pyOr username0 (Json.str (toString user_id)) else display0
  let public1 := if !public0.truthy then display1 else public0
  let username1 := if !username0.truthy then display1 else username0
  let location0 := if m.isObj then m.pyGet "location" else Json.null
  let timezone0 := if m.isObj then m.pyGet "timezone" else Json.null
  let status0 := if m.isObj then m.pyGet "status" else Json.null
  let location := if location0.isObj then location0 else Json.obj []
  let timezoneObj := if timezone0.isObj then timezone0 else Json.obj []
  let status := if status0.isObj then status0 else Json.obj []
  let regTs := if m.isObj then m.pyGet "registration_date" else Json.null
  let regPair : Option Int × Option String :=
    if regTs.isNull then (none, none)
    else
      match pyToInt regTs with
      | none => (none, none)
      | some r =>
        match env.isoOfEpoch r with
        | none => (none, none)
        | some s => (some r, some s)
  let joinedAt := match regPair.2 with
    | some s => s
    | none => env.nowIso
  Json.obj
    ([("id", Json.int user_id),
      ("username", username1),
      ("display_name", display1),
      ("public_name", public1),
      ("location", Json.obj [("country", location.pyGet "country"),
                             ("city", location.pyGet "city")]),
      ("timezone", timezoneObj),
      ("joined_at", Json.str joinedAt),
      ("status", status)]
     ++ (match regPair.1 with
         | some r => [("reg_at", Json.int r)]
         | none => []))

/-! ## src/sqlite_cache.py

`SqliteUserCache` is a SQLite table `users(user_id INTEGER PRIMARY KEY,
payload_json TEXT)`; `INSERT OR REPLACE` upserts by primary key.  The table
is modelled as a finite map `Int → Option Json` (the `json.dumps` /
`json.loads` round-trip of the stored payload is the identity on the JSON
model).  `set_many` + `commit` form one durable transaction. -/

def Cache : Type := Int → Option Json

def Cache.empty : Cache := fun _ => none

/-- `SqliteUserCache.get`. -/
def Cache.get (c : Cache) (uid : Int) : Option Json := c uid

/-- `SqliteUserCache.set`: `INSERT OR REPLACE` of one row. -/
def Cache.set (c : Cache) (uid : Int) (obj : Json) : Cache :=
  fun k => if k = uid then some obj else c k

/-- `SqliteUserCache.set_many`: `executemany` of `INSERT OR REPLACE`,
row by row in list order (an empty list is a no-op). -/
def Cache.set_many (c : Cache) (items : List (Int × Json)) : Cache :=
  items.foldl (fun c p => c.set p.1 p.2) c

/-! ## src/rate_limiter.py

The monotonic clock is a rational number.  `time.monotonic()` returns the
current clock advanced by a nonnegative environment drift (consecutive
reads may advance arbitrarily); `time.sleep(s)` (only called for `s > 0`)
advances the clock by at least `s` - exactly `s` in the model, with any
excess folded into the next read's drift.  `random.uniform(0, jitter_s)`
draws come from the environment's jitter stream. -/

structure RLCfg : Type where
  min_interval_s : ℚ
  requests_per_minute : Option Nat
  jitter_s : ℚ

structure RLEnv : Type where
  drift : Nat → ℚ
  jitter : Nat → ℚ

structure RLState : Type where
  lastTs : ℚ
  window : List ℚ
  now : ℚ
  tick : Nat
  jtick : Nat

/-- One `time.monotonic()` read. -/
def rlMonotonic (env : RLEnv) (s : RLState) : ℚ × RLState :=
  let t := s.now + env.drift s.tick
  (t, { s with now := t, tick := s.tick + 1 })

/-- `RateLimiter._sleep`: sleep only for a positive duration. -/
def rlSleep (secs : ℚ) (s : RLState) : RLState :=
  if 0 < secs then { s with now := s.now + secs } else s

/-- Python truthiness of `requests_per_minute` (`None` and `0` are falsy). -/
def rpmTruthy : Option Nat → Bool
  | none => false
  | some n => n != 0

/-- Stage 1 of `wait()`: the sliding-window RPM cap.  Given the first
`time.monotonic()` reading `now0`, drop expired window entries and, when
the window is full, sleep until the oldest entry exits, re-reading the
clock.  Returns the current `now` variable and the state. -/
def rlRpmStage (cfg : RLCfg) (env : RLEnv) (now0 : ℚ) (s : RLState) : ℚ × RLState :=
  match cfg.requests_per_minute with
  | some rpm =>
    if rpm != 0 then
      let cutoff := now0 - 60
      let win := s.window.dropWhile (fun t => decide (t < cutoff))
      let s := { s with window := win }
      if rpm ≤ win.length then
        let oldest := win.headD 0
        let s := rlSleep (max 0 ((oldest + 60) - now0)) s
        rlMonotonic env s
      else (now0, s)
    else (now0, s)
  | none => (now0, s)

/-- Stage 2 of `wait()`: the minimum inter-call interval.  `if
self._last_ts:` is a truthiness test, so a recorded timestamp of exactly
0.0 is treated as "unset" and enforces nothing. -/
def rlIntervalStage (cfg : RLCfg) (now1 : ℚ) (s : RLState) : RLState :=
  if s.lastTs ≠ 0 then
    let gap := now1 - s.lastTs
    rlSleep (max 0 (cfg.min_interval_s - gap)) s
  else s

/-- Stage 3 of `wait()`: jitter. -/
def rlJitterStage (cfg : RLCfg) (env : RLEnv) (s : RLState) : RLState :=
  if cfg.jitter_s ≠ 0 ∧ 0 < cfg.jitter_s then
    rlSleep (env.jitter s.jtick) { s with jtick := s.jtick + 1 }
  else s

/-- `RateLimiter.wait()`: RPM cap, minimum interval, jitter, then record
the new call timestamp in `_last_ts` and (when capped) the window. -/
def RateLimiter.wait (cfg : RLCfg) (env : RLEnv) (s : RLState) : RLState :=
  let m0 := rlMonotonic env s
  let r1 := rlRpmStage cfg env m0.1 m0.2
  let s2 := rlIntervalStage cfg r1.1 r1.2
  let s3 := rlJitterStage cfg env s2
  let m4 := rlMonotonic env s3
  let s4 := { m4.2 with lastTs := m4.1 }
  if rpmTruthy cfg.requests_per_minute then { s4 with window := s4.window ++ [m4.1] }
  else s4

/-- Fresh limiter state starting at monotonic time `t0`
(`_last_ts = 0.0`, empty window). -/
def rlInit (t0 : ℚ) : RLState :=
  { lastTs := 0, window := [], now := t0, tick := 0, jtick := 0 }

/-- The recorded call timestamps (`_last_ts` after each of `n` calls). -/
def rlRecord (cfg : RLCfg) (env : RLEnv) : Nat → RLState → List ℚ
  | 0, _ => []
  | n + 1, s =>
    let s' := RateLimiter.wait cfg env s
    s'.lastTs :: rlRecord cfg env n s'

/-! ## src/oauth.py -/

/-- `token.startswith("<")` for the one-character prefix `<`: the token's
first character is `<`. -/
def startsWithLt (t : String) : Bool :=
  match t.data with
  | [] => false
  | c :: _ => c == '<'

/-- `oauth.get_headers`: fails (ValueError) when the configured token is
absent, falsy, or a `<placeholder>`. -/
def get_headers (token : Option String) : Except String (List (String × String)) :=
  match token with
  | none => Except.error "Missing oauth_access_token"
  | some t =>
    if t == "" || startsWithLt t then Except.error "Missing oauth_access_token"
    else Except.ok [("freelancer-oauth-v1", t)]

/-! ## src/http_client.py

`FreelancerApiClient._request_json`.  One attempt's outcome is either a
transport exception (`requests.Timeout` / `requests.ConnectionError`) or a
response carrying a status code, an optional parsed `Retry-After` header
(`none` covers an absent, empty or unparseable header - all fall back to
exponential backoff), a body (list of characters, as Python slices strings
by code point), and the result of `resp.json()` (`none` = ValueError).
`time.sleep` durations are recorded as trace events; its rejection of
negative arguments is outside the model. -/

structure HttpCfg : Type where
  max_retries : Nat
  backoff_base_s : ℚ
  backoff_max_s : ℚ

inductive AttemptOutcome : Type where
  | netErr : AttemptOutcome
  | resp (status : Nat) (retryAfter : Option ℚ) (body : List Char) (json : Option Json)
deriving Repr

inductive HttpEv : Type where
  | wait : HttpEv
  | request : HttpEv
  | sleep (s : ℚ) : HttpEv
deriving Repr, DecidableEq

inductive HttpResult : Type where
  | ok (j : Json)
  | nonJson (raw : List Char)
  | httpError (status : Nat)
  | netExc
  | exhausted (last_status : Option Nat) (last_body : Option (List Char))
  | fatalAuth
deriving Repr

/-- `FreelancerApiClient._backoff`. -/
def backoff (cfg : HttpCfg) (attempt : Nat) : ℚ :=
  min cfg.backoff_max_s (cfg.backoff_base_s * 2 ^ attempt)

/-- `FreelancerApiClient._compute_retry_sleep`. -/
def compute_retry_sleep (cfg : HttpCfg) (retryAfter : Option ℚ) (attempt : Nat) : ℚ :=
  match retryAfter with
  | some v => min cfg.backoff_max_s v
  | none => backoff cfg attempt

/-- Transient statuses retried with backoff. -/
def transientStatus (status : Nat) : Bool :=
  status == 429 || status == 500 || status == 502 || status == 503 || status == 504

/-- The retry loop of `_request_json`: `attempt` is the loop index,
`remaining` the number of iterations left (`max_retries + 1` at entry).
When `get_headers` raises ValueError on the first attempt, the
`except ValueError` handler evaluates `getattr(resp, ...)` with `resp`
unbound and the call dies with UnboundLocalError: `fatalAuth`, before any
`session.request`. -/
def requestGo (cfg : HttpCfg) (oracle : Nat → AttemptOutcome) (authFail : Bool) :
    Nat → Nat → Bool → Option Nat → Option (List Char) → List HttpEv × HttpResult
  | _, 0, lastExc, lastStatus, lastText =>
    ([], if lastExc then .netExc else .exhausted lastStatus lastText)
  | attempt, remaining + 1, lastExc, lastStatus, lastText =>
    if authFail then ([.wait], .fatalAuth)
    else
      match oracle attempt with
      | .netErr =>
        let rest := requestGo cfg oracle authFail (attempt + 1) remaining true lastStatus lastText
        (.wait :: .request :: .sleep (backoff cfg attempt) :: rest.1, rest.2)
      | .resp status retryAfter body json =>
        let lastStatus' := some status
        -- `last_text = (resp.text or "")[:500]`
        let lastText' := some (body.take 500)
        if transientStatus status then
          let rest := requestGo cfg oracle authFail (attempt + 1) remaining lastExc lastStatus' lastText'
          (.wait :: .request :: .sleep (compute_retry_sleep cfg retryAfter attempt) :: rest.1, rest.2)
        else if 400 ≤ status ∧ status < 600 then
          -- resp.raise_for_status() → HTTPError, re-raised (non-retryable)
          ([.wait, .request], .httpError status)
        else
          match json with
          | some j => ([.wait, .request], .ok j)
          | none => ([.wait, .request], .nonJson body)

/-- `FreelancerApiClient._request_json`. -/
def request_json (cfg : HttpCfg) (oracle : Nat → AttemptOutcome)
    (token : Option String) : List HttpEv × HttpResult :=
  let authFail := match get_headers token with
    | .ok _ => false
    | .error _ => true
  requestGo cfg oracle authFail 0 (cfg.max_retries + 1) false none none

/-! ## src/lead_generator.py

The orchestrator is modelled as a fuel-indexed function producing the trace
of externally visible side effects.  Each trace event is atomic:
`cursorSave` is `save_json_atomic` (write-temp-then-rename), `logAppend` is
one `append_jsonl` line, `cacheWrite` is one `set_many` + `commit`
transaction, `sinkUpsert` one Supabase upsert call (the sink is assumed
configured; when it is not, `upsert_users` silently skips, which only
removes `sinkUpsert` events).  The remote API is a deterministic `World`
indexed by the varying request parameters.  Fuel is consumed once per
directory page; `none` means the fuel bound was hit before the terminating
empty page. -/

structure World : Type where
  directoryPayload : Nat → Json
  reviewsPayload : Int → Json
  usersPayload : List Int → Json

/-- Well-formed worlds: payloads are JSON objects and directory entries are
dicts.  (On anything else the Python code would raise `AttributeError`
mid-run, which for resumption purposes is just another interruption.) -/
def World.WF (w : World) : Prop :=
  (∀ off, (w.directoryPayload off).isObj = true ∧
    ∀ u ∈ extract_users (w.directoryPayload off), u.isObj = true) ∧
  (∀ fid, (w.reviewsPayload fid).isObj = true) ∧
  (∀ b, (w.usersPayload b).isObj = true)

/-- The persisted `state["directory"]` dict: the fields the code reads and
writes.  A missing `offset` key reads back as 0, so it is represented as a
plain `Nat`; the `limit` key is write-only and may be absent (`none`). -/
structure PState : Type where
  offset : Nat
  index_in_page : Nat
  limit : Option Json
deriving Repr

structure PCfg : Type where
  directory_limit : Nat
  users_batch_size : Nat

inductive Ev : Type where
  | sinkUpsert (rows : List Json)
  | cacheWrite (rows : List (Int × Json))
  | logAppend (fid : Int) (reviewer_ids : List Int) (reviewers : List (Int × Json))
  | cursorSave (st : PState)
deriving Repr

/-- Structural worker for `chunked`: the fuel (initially the list length)
dominates the number of chunks since every step consumes at least one
element. -/
def chunkedAux (size : Nat) : Nat → List Int → List (List Int)
  | 0, _ => []
  | _, [] => []
  | fuel + 1, x :: xs => ((x :: xs).take size) :: chunkedAux size fuel ((x :: xs).drop size)

/-- `lead_generator.chunked`:
`[items[i : i + size] for i in range(0, len(items), size)]`
(Python raises on `size = 0`; the configured batch size is positive). -/
def chunked (items : List Int) (size : Nat) : List (List Int) :=
  if size = 0 then [] else chunkedAux size items.length items

/-- `supabase_storage.upsert_users`: keep dict rows with a non-None id and
upsert them; an empty filtered list performs no call. -/
def upsert_users (rows : List Json) : List Ev :=
  let rows := rows.filter (fun r => r.isObj && !(r.pyGet "id").isNull)
  if rows.isEmpty then [] else [.sinkUpsert rows]

/-- One batch of the missing-reviewers loop: fetch the batch, minimize each
returned user, skip accounts whose minimized `closed` field is truthy
(neither cached nor sinked), upsert the rest to Supabase, then write them
to the cache in one transaction. -/
def processBatch (env : TimeEnv) (w : World) (cache : Cache) (batch : List Int) :
    List Ev × Cache :=
  let users_map := extract_users_map (w.usersPayload batch)
  let rows := users_map.foldl
    (fun (acc : List (Int × Json) × List Json) p =>
      let minimized := minimize_user p.2
      if (minimized.pyGet "closed").truthy then acc
      else (acc.1 ++ [(p.1, minimized)], acc.2 ++ [to_supabase_client_row env p.1 minimized]))
    ([], [])
  (upsert_users rows.2 ++ [.cacheWrite rows.1], cache.set_many rows.1)

/-- The `for batch in chunked(missing, users_batch_size)` loop. -/
def runBatches (env : TimeEnv) (w : World) : List (List Int) → Cache → List Ev × Cache
  | [], cache => ([], cache)
  | b :: bs, cache =>
    let r := processBatch env w cache b
    let rest := runBatches env w bs r.2
    (r.1 ++ rest.1, rest.2)

/-- Processing of one entity with id `fid` (fetch reviews, resolve missing
reviewers batch-wise with caching, emit the lead record). -/
def entityEvents (cfg : PCfg) (env : TimeEnv) (w : World) (cache : Cache) (fid : Int) :
    List Ev × Cache :=
  let reviewer_ids := sorted_reviewer_ids (w.reviewsPayload fid)
  let missing := reviewer_ids.filter (fun rid => (cache.get rid).isNone)
  let br :=
    if missing.isEmpty then ([], cache)
    else runBatches env w (chunked missing cfg.users_batch_size) cache
  let cache := br.2
  -- `[user_cache.get(rid) for rid in reviewer_ids if user_cache.get(rid)]`
  let reviewers := reviewer_ids.filterMap
    (fun rid =>
      match cache.get rid with
      | some d => if d.truthy then some (rid, d) else none
      | none => none)
  (br.1 ++ [.logAppend fid reviewer_ids reviewers], cache)

/-- The actual JSONL line written for a `logAppend` event. -/
def leadRecordJson (fid : Int) (reviewer_ids : List Int)
    (reviewers : List (Int × Json)) : Json :=
  Json.obj
    [("freelancer_user_id", Json.int fid),
     ("reviewer_ids", Json.arr (reviewer_ids.map Json.int)),
     ("reviewers", Json.arr (reviewers.map (fun p => p.2)))]

/-- The `for idx, u in enumerate(users)` loop of one page: `users` is the
not-yet-visited suffix of the page, `idx` the absolute index of its head,
`idx0` the loaded `index_in_page` (entities with `idx < idx0` are skipped),
`saved` the currently persisted state dict and `offset` the local offset
variable.  A malformed entity (no id) persists only `index_in_page`; a
processed entity persists offset, index and limit after its side effects. -/
def pageRun (cfg : PCfg) (env : TimeEnv) (w : World) :
    List Json → Nat → Nat → Cache → PState → Nat → List Ev × Cache × PState
  | [], _, _, cache, saved, _ => ([], cache, saved)
  | u :: rest, idx, idx0, cache, saved, offset =>
    if idx < idx0 then pageRun cfg env w rest (idx + 1) idx0 cache saved offset
    else
      match extract_user_id u with
      | none =>
        let saved' := { saved with index_in_page := idx + 1 }
        let r := pageRun cfg env w rest (idx + 1) idx0 cache saved' offset
        (.cursorSave saved' :: r.1, r.2)
      | some fid =>
        let e := entityEvents cfg env w cache fid
        let saved' : PState :=
          { offset := offset, index_in_page := idx + 1,
            limit := some (Json.int (Int.ofNat cfg.directory_limit)) }
        let r := pageRun cfg env w rest (idx + 1) idx0 e.2 saved' offset
        (e.1 ++ .cursorSave saved' :: r.1, r.2)

/-- The `while True` page loop, with one unit of fuel per page fetch. -/
def runLoop (cfg : PCfg) (env : TimeEnv) (w : World) :
    Nat → Nat → Nat → Cache → PState → Option (List Ev × Cache × PState)
  | 0, _, _, _, _ => none
  | fuel + 1, offset, idx0, cache, saved =>
    let users := extract_users (w.directoryPayload offset)
    if users.isEmpty then some ([], cache, saved)
    else
      let p := pageRun cfg env w users 0 idx0 cache saved offset
      let savedEnd : PState :=
        { offset := offset + cfg.directory_limit, index_in_page := 0,
          limit := (p.2.2).limit }
      match runLoop cfg env w fuel (offset + cfg.directory_limit) 0 p.2.1 savedEnd with
      | none => none
      | some r => some (p.1 ++ .cursorSave savedEnd :: r.1, r.2)

/-- The default initial state document of `run_lead_generation`. -/
def defaultState (directory_limit : Nat) : Json :=
  Json.obj [("directory",
    Json.obj [("offset", Json.int 0), ("index_in_page", Json.int 0),
              ("limit", Json.int (Int.ofNat directory_limit))])]

/-- Startup decoding of the loaded state document:
`directory_state = state.setdefault("directory", {})`,
`offset = int(directory_state.get("offset", 0))`,
`index_in_page = int(directory_state.get("index_in_page", 0))`.
`none` models a startup crash (non-dict state / non-dict directory value /
failing `int()`), or a negative cursor, which the model does not follow. -/
def parsePState (state : Json) : Option PState :=
  match state with
  | .obj _ =>
    let dir := match state.get "directory" with
      | some d => d
      | none => Json.obj []
    match dir with
    | .obj _ =>
      let offJ := match dir.get "offset" with
        | some v => v
        | none => Json.int 0
      let idxJ := match dir.get "index_in_page" with
        | some v => v
        | none => Json.int 0
      match pyToInt offJ, pyToInt idxJ with
      | some o, some i =>
        if 0 ≤ o ∧ 0 ≤ i then
          some { offset := o.toNat, index_in_page := i.toNat, limit := dir.get "limit" }
        else none
      | _, _ => none
    | _ => none
  | _ => none

/-- `lead_generator.run_lead_generation` (the one-time JSON-cache migration
is skipped, as when `user_cache.json` does not exist; `cache0` is the
SQLite cache contents at startup). -/
def run_lead_generation (cfg : PCfg) (env : TimeEnv) (w : World) (fuel : Nat)
    (file : FileContent) (cache0 : Cache) : Option (List Ev × Cache × PState) :=
  let state := load_json file (defaultState cfg.directory_limit)
  match parsePState state with
  | none => none
  | some ps => runLoop cfg env w fuel ps.offset ps.index_in_page cache0 ps

/-! ### Trace analysis: interruption and resumption

A crash may interrupt the process between any two atomic events, leaving
exactly a prefix of the trace performed.  The durable facts a resumed run
starts from are the last persisted cursor in that prefix (or the cursor
persisted before the run) and the cache after the prefix's committed
transactions. -/

/-- Entity ids of the lead records appended by a trace. -/
def appendsOf (evs : List Ev) : List Int :=
  evs.filterMap (fun e =>
    match e with
    | .logAppend fid _ _ => some fid
    | _ => none)

/-- The last persisted cursor in a trace, starting from `s0`. -/
def lastSaved (evs : List Ev) (s0 : PState) : PState :=
  evs.foldl (fun acc e =>
    match e with
    | .cursorSave s => s
    | _ => acc) s0

/-- The cache contents after a trace's committed transactions. -/
def cacheAfter (evs : List Ev) (c0 : Cache) : Cache :=
  evs.foldl (fun c e =>
    match e with
    | .cacheWrite rows => c.set_many rows
    | _ => c) c0

/-- The lead records of a trace that are not yet covered by a persisted
cursor: appends after the last `cursorSave`. -/
def inflight (evs : List Ev) : List Int :=
  evs.foldl (fun acc e =>
    match e with
    | .cursorSave _ => []
    | .logAppend fid _ _ => acc ++ [fid]
    | _ => acc) []

/-- Every `logAppend` is immediately followed by a `cursorSave`: the cursor
covering an entity is persisted directly after its log append (which itself
follows all of the entity's cache and sink writes in the trace). -/
def saveAfterAppend : List Ev → Bool
  | [] => true
  | .logAppend _ _ _ :: .cursorSave _ :: r => saveAfterAppend r
  | .logAppend _ _ _ :: _ => false
  | _ :: r => saveAfterAppend r

/-- Cache-independent projection of a page's appended entity ids. -/
def pageAppends : List Json → Nat → Nat → List Int
  | [], _, _ => []
  | u :: rest, idx, idx0 =>
    if idx < idx0 then pageAppends rest (idx + 1) idx0
    else
      match extract_user_id u with
      | none => pageAppends rest (idx + 1) idx0
      | some fid => fid :: pageAppends rest (idx + 1) idx0

/-- Cache-independent projection of a run's appended entity ids. -/
def appendsFrom (cfg : PCfg) (w : World) : Nat → Nat → Nat → Option (List Int)
  | 0, _, _ => none
  | fuel + 1, offset, idx0 =>
    let users := extract_users (w.directoryPayload offset)
    if users.isEmpty then some []
    else
      match appendsFrom cfg w fuel (offset + cfg.directory_limit) 0 with
      | none => none
      | some rest => some (pageAppends users 0 idx0 ++ rest)

/-- A run interrupted after `k` events and then resumed from the persisted
cursor and the durable cache, for each cut in `cuts`, with a final
uninterrupted run; yields the concatenated output-log entity ids. -/
def crashRun (cfg : PCfg) (env : TimeEnv) (w : World) (fuel : Nat) :
    List Nat → Nat → Nat → Cache → PState → Option (List Int)
  | [], offset, idx0, cache, saved =>
    (runLoop cfg env w fuel offset idx0 cache saved).map (fun r => appendsOf r.1)
  | k :: cuts, offset, idx0, cache, saved =>
    match runLoop cfg env w fuel offset idx0 cache saved with
    | none => none
    | some r =>
      let pre := r.1.take k
      let s' := lastSaved pre saved
      (crashRun cfg env w fuel cuts s'.offset s'.index_in_page (cacheAfter pre cache) s').map
        (fun rest => appendsOf pre ++ rest)

/-! ### Concrete end-to-end scenario (spec section 8)

Directory page size 2; page `[{id:10},{id:11}]` at offset 0 and an empty
page at offset 2; entity 10 has reviews from reviewer ids 5 and 6, entity
11 has none.  `wClosed` is the same world except that user 5's account is
flagged closed. -/

def tenvC : TimeEnv :=
  { isoOfEpoch := fun _ => none, nowIso := "1970-01-01 00:00:00" }

def cfg2 : PCfg := { directory_limit := 2, users_batch_size := 50 }

def dirPage0 : Json :=
  Json.obj [("result", Json.obj [("users",
    Json.arr [Json.obj [("id", Json.int 10)], Json.obj [("id", Json.int 11)]])])]

def dirPageEmpty : Json :=
  Json.obj [("result", Json.obj [("users", Json.arr [])])]

def revs10 : Json :=
  Json.obj [("result", Json.obj [("reviews",
    Json.arr [Json.obj [("from_user_id", Json.int 5)],
              Json.obj [("from_user_id", Json.int 6)]])])]

def revsEmpty : Json :=
  Json.obj [("result", Json.obj [("reviews", Json.arr [])])]

def user5 : Json := Json.obj [("id", Json.int 5), ("username", Json.str "u5")]

def user5closed : Json :=
  Json.obj [("id", Json.int 5), ("username", Json.str "u5"), ("closed", Json.bool true)]

def user6 : Json := Json.obj [("id", Json.int 6), ("username", Json.str "u6")]

def usersBatchPayload : Json :=
  Json.obj [("result", Json.obj [("users", Json.arr [user5, user6])])]

def usersBatchPayloadClosed : Json :=
  Json.obj [("result", Json.obj [("users", Json.arr [user5closed, user6])])]

def wScenario : World :=
  { directoryPayload := fun off => if off = 0 then dirPage0 else dirPageEmpty,
    reviewsPayload := fun fid => if fid = 10 then revs10 else revsEmpty,
    usersPayload := fun _ => usersBatchPayload }

def wClosed : World :=
  { directoryPayload := fun off => if off = 0 then dirPage0 else dirPageEmpty,
    reviewsPayload := fun fid => if fid = 10 then revs10 else revsEmpty,
    usersPayload := fun _ => usersBatchPayloadClosed }

/-- The startup cursor parsed from the default state document. -/
def psInit : PState :=
  { offset := 0, index_in_page := 0, limit := some (Json.int 2) }

/-- Is an attempt outcome in the transient (retry) class? -/
def transientOutcome : AttemptOutcome → Bool
  | .resp s _ _ _ => transientStatus s
  | .netErr => false

def AttemptOutcome.statusOf : AttemptOutcome → Option Nat
  | .resp s _ _ _ => some s
  | .netErr => none

def AttemptOutcome.bodyOf : AttemptOutcome → Option (List Char)
  | .resp _ _ b _ => some b
  | .netErr => none

/-- The sleep performed after a retried attempt `i` with outcome `o`. -/
def attemptSleep (cfg : HttpCfg) (o : AttemptOutcome) (i : Nat) : ℚ :=
  match o with
  | .netErr => backoff cfg i
  | .resp _ ra _ _ => compute_retry_sleep cfg ra i

/-- The `wait / request / sleep` trace of `r` consecutive retried attempts
starting at attempt index `a`. -/
def transientTrace (cfg : HttpCfg) (oracle : Nat → AttemptOutcome) : Nat → Nat → List HttpEv
  | _, 0 => []
  | a, r + 1 =>
    .wait :: .request :: .sleep (attemptSleep cfg (oracle a) a) ::
      transientTrace cfg oracle (a + 1) r


/-- No side-effect event of the trace stores or resolves user `uid`:
no cache-write row is keyed by `uid`, no sink row carries `id = uid`, and
no lead record resolves a reviewer detail entry for `uid`. -/
def NoClosedUid (uid : Int) (evs : List Ev) : Prop :=
  (∀ rows, Ev.cacheWrite rows ∈ evs → ∀ m, (uid, m) ∉ rows) ∧
  (∀ rows, Ev.sinkUpsert rows ∈ evs → ∀ r ∈ rows, r.pyGet "id" ≠ Json.int uid) ∧
  (∀ fid ids revs, Ev.logAppend fid ids revs ∈ evs → ∀ d, (uid, d) ∉ revs)


/-- Cache and sink writes: the events inside an entity's batch loop, which
are neither log appends nor cursor saves. -/
def isSideEffect : Ev → Bool
  | .sinkUpsert _ => true
  | .cacheWrite _ => true
  | _ => false


/-! # Theorems -/

/-! ### Cache lemmas -/

theorem cache_get_set (c : Cache) (uid k : Int) (obj : Json) :
    (c.set uid obj).get k = if k = uid then some obj else c.get k := rfl

theorem cache_set_many_not_mem (batch : List (Int × Json)) :
    ∀ (c : Cache) (uid : Int), uid ∉ batch.map Prod.fst →
      (c.set_many batch).get uid = c.get uid := by
  induction batch with
  | nil => intro c uid _; rfl
  | cons p rest ih =>
    intro c uid h
    simp only [List.map_cons, List.mem_cons, not_or] at h
    show ((c.set p.1 p.2).set_many rest).get uid = c.get uid
    rw [ih (c.set p.1 p.2) uid h.2, cache_get_set, if_neg h.1]

theorem cache_set_many_mem (batch : List (Int × Json))
    (hnd : (batch.map Prod.fst).Nodup) :
    ∀ (c : Cache) (p : Int × Json), p ∈ batch → (c.set_many batch).get p.1 = some p.2 := by
  induction batch with
  | nil => intro c p h; cases h
  | cons q rest ih =>
    intro c p hp
    simp only [List.map_cons, List.nodup_cons] at hnd
    rcases List.mem_cons.mp hp with h | h
    · subst h
      show ((c.set p.1 p.2).set_many rest).get p.1 = some p.2
      rw [cache_set_many_not_mem rest _ _ hnd.1, cache_get_set, if_pos rfl]
    · exact ih hnd.2 _ p h

/-- C6: after `set_many` on a batch with distinct ids, `get` returns the
exact stored record for every id of the batch, `get` on any id outside the
batch is unchanged, and on a cache to which nothing was ever written it is
absent (`none`). -/
theorem entity_cache_set_many_roundtrip (c : Cache) (batch : List (Int × Json))
    (hnd : (batch.map Prod.fst).Nodup) :
    (∀ p ∈ batch, (c.set_many batch).get p.1 = some p.2) ∧
    (∀ uid, uid ∉ batch.map Prod.fst → (c.set_many batch).get uid = c.get uid) ∧
    (∀ uid, uid ∉ batch.map Prod.fst → (Cache.empty.set_many batch).get uid = none) :=
  ⟨fun p hp => cache_set_many_mem batch hnd c p hp,
   fun uid h => cache_set_many_not_mem batch c uid h,
   fun uid h => cache_set_many_not_mem batch Cache.empty uid h⟩

theorem entity_cache_set_many_roundtrip_witness :
    ([(1, Json.int 7), (2, Json.str "x")].map (Prod.fst (β := Json))).Nodup ∧
    ((∀ p ∈ [(1, Json.int 7), (2, Json.str "x")],
        (Cache.empty.set_many [(1, Json.int 7), (2, Json.str "x")]).get p.1 = some p.2) ∧
      (∀ uid, uid ∉ [(1, Json.int 7), (2, Json.str "x")].map Prod.fst →
        (Cache.empty.set_many [(1, Json.int 7), (2, Json.str "x")]).get uid =
          Cache.empty.get uid) ∧
      (∀ uid, uid ∉ [(1, Json.int 7), (2, Json.str "x")].map Prod.fst →
        (Cache.empty.set_many [(1, Json.int 7), (2, Json.str "x")]).get uid = none)) :=
  ⟨by decide, entity_cache_set_many_roundtrip Cache.empty _ (by decide)⟩

/-! ### C7 -/

/-- C7: when the cursor state file is missing or unreadable, `load_json`
returns the supplied default rather than raising, the default document
decodes to offset 0, index 0, and the run starts from that default
position. -/
theorem state_corruption_falls_back_to_default (cfg : PCfg) (env : TimeEnv) (w : World)
    (fuel : Nat) (cache0 : Cache) (d : Json) :
    load_json .missing d = d ∧ load_json .corrupt d = d ∧
    parsePState (defaultState cfg.directory_limit) =
      some { offset := 0, index_in_page := 0,
             limit := some (Json.int (Int.ofNat cfg.directory_limit)) } ∧
    run_lead_generation cfg env w fuel .corrupt cache0 =
      runLoop cfg env w fuel 0 0 cache0
        { offset := 0, index_in_page := 0,
          limit := some (Json.int (Int.ofNat cfg.directory_limit)) } ∧
    run_lead_generation cfg env w fuel .missing cache0 =
      runLoop cfg env w fuel 0 0 cache0
        { offset := 0, index_in_page := 0,
          limit := some (Json.int (Int.ofNat cfg.directory_limit)) } :=
  ⟨rfl, rfl, rfl, rfl, rfl⟩

/-! ### C4 -/

theorem reviewerIdList_go_mem (l : List Json) (i : Int) :
    ∀ acc : List Int,
      (i ∈ l.foldl (fun acc r =>
          match reviewerIdOf r with
          | some j => if j ∈ acc then acc else acc ++ [j]
          | none => acc) acc) ↔ i ∈ acc ∨ ∃ r ∈ l, reviewerIdOf r = some i := by
  induction l with
  | nil => intro acc; simp
  | cons r rest ih =>
    intro acc
    simp only [List.foldl_cons]
    rw [ih]
    cases h : reviewerIdOf r with
    | none => simp [h]
    | some j =>
      by_cases hj : j ∈ acc
      · simp only [h, if_pos hj, List.mem_cons]
        constructor
        · rintro (ha | ⟨r', hr', hid⟩)
          · exact Or.inl ha
          · exact Or.inr ⟨r', Or.inr hr', hid⟩
        · rintro (ha | ⟨r', hr' | hr', hid⟩)
          · exact Or.inl ha
          · subst hr'
            rw [h] at hid
            cases hid
            exact Or.inl hj
          · exact Or.inr ⟨r', hr', hid⟩
      · simp only [h, if_neg hj, List.mem_append, List.mem_singleton, List.mem_cons]
        constructor
        · rintro ((ha | hji | hemp) | ⟨r', hr', hid⟩)
          · exact Or.inl ha
          · subst hji
            exact Or.inr ⟨r, Or.inl rfl, h⟩
          · cases hemp
          · exact Or.inr ⟨r', Or.inr hr', hid⟩
        · rintro (ha | ⟨r', hr' | hr', hid⟩)
          · exact Or.inl (Or.inl ha)
          · subst hr'
            rw [h] at hid
            cases hid
            exact Or.inl (Or.inr (Or.inl rfl))
          · exact Or.inr ⟨r', hr', hid⟩

theorem reviewerIdList_go_nodup (l : List Json) :
    ∀ acc : List Int, acc.Nodup →
      (l.foldl (fun acc r =>
          match reviewerIdOf r with
          | some j => if j ∈ acc then acc else acc ++ [j]
          | none => acc) acc).Nodup := by
  induction l with
  | nil => intro acc h; simpa using h
  | cons r rest ih =>
    intro acc h
    simp only [List.foldl_cons]
    apply ih
    cases hr : reviewerIdOf r with
    | none => simpa using h
    | some j =>
      by_cases hj : j ∈ acc
      · simpa [hr, hj] using h
      · simp only [hr, if_neg hj]
        simpa [List.nodup_append] using ⟨h, hj⟩

theorem reviewerIdList_nodup (payload : Json) : (reviewerIdList payload).Nodup :=
  reviewerIdList_go_nodup _ [] List.nodup_nil

theorem mem_reviewerIdList (payload : Json) (i : Int) :
    i ∈ reviewerIdList payload ↔ ∃ r ∈ extract_reviews payload, reviewerIdOf r = some i := by
  unfold reviewerIdList
  rw [reviewerIdList_go_mem]
  simp

/-- C4: the `reviewer_ids` list placed in a lead record is the
deduplicated set of reviewer ids extracted from the reviews payload,
sorted ascending; in particular reviews with `from_user_id` values
`[1, 2, 1]` yield the reviewer set `{1, 2}` and the output list `[1, 2]`. -/
theorem lead_reviewer_ids_sorted_dedup (payload : Json) (i : Int) :
    (sorted_reviewer_ids payload).Sorted (· ≤ ·) ∧
    (sorted_reviewer_ids payload).Nodup ∧
    (i ∈ sorted_reviewer_ids payload ↔ i ∈ extract_reviewer_ids payload) ∧
    (i ∈ extract_reviewer_ids payload ↔
      ∃ r ∈ extract_reviews payload, reviewerIdOf r = some i) ∧
    sorted_reviewer_ids (Json.obj [("reviews", Json.arr
      [Json.obj [("from_user_id", Json.int 1)], Json.obj [("from_user_id", Json.int 2)],
       Json.obj [("from_user_id", Json.int 1)]])]) = [1, 2] ∧
    extract_reviewer_ids (Json.obj [("reviews", Json.arr
      [Json.obj [("from_user_id", Json.int 1)], Json.obj [("from_user_id", Json.int 2)],
       Json.obj [("from_user_id", Json.int 1)]])]) = ({1, 2} : Finset Int) := by
  refine ⟨List.sorted_insertionSort _ _, ?_, ?_, ?_, by decide, by decide⟩
  · exact ((List.perm_insertionSort _ _).nodup_iff).mpr (reviewerIdList_nodup payload)
  · unfold sorted_reviewer_ids extract_reviewer_ids
    rw [(List.perm_insertionSort _ _).mem_iff, List.mem_toFinset]
  · unfold extract_reviewer_ids
    rw [List.mem_toFinset]
    exact mem_reviewerIdList payload i

/-! ### C10 -/

theorem toDigitsCore_length_gt (b : Nat) :
    ∀ (f n : Nat) (l : List Char), l.length < (Nat.toDigitsCore b (f + 1) n l).length := by
  intro f
  induction f with
  | zero =>
    intro n l
    simp only [Nat.toDigitsCore]
    split
    · simp
    · simp [Nat.toDigitsCore]
  | succ f ih =>
    intro n l
    simp only [Nat.toDigitsCore]
    split
    · simp
    · have h2 := ih (n / b) ((n % b).digitChar :: l)
      simp only [Nat.toDigitsCore] at h2
      exact Nat.lt_trans (Nat.lt_succ_self _) h2

theorem nat_repr_ne_empty (n : Nat) : Nat.repr n ≠ "" := by
  intro h
  have hd : (Nat.repr n).data = ([] : List Char) := by rw [h]
  have hlt := toDigitsCore_length_gt 10 n n []
  have hdd : (Nat.repr n).data = Nat.toDigitsCore 10 (n + 1) n [] := rfl
  rw [hdd] at hd
  rw [hd] at hlt
  simp at hlt

/-- `str(user_id)` is never the empty string. -/
theorem int_toString_ne_empty (i : Int) : toString i ≠ "" := by
  cases i with
  | ofNat n => exact nat_repr_ne_empty n
  | negSucc n =>
    show "-" ++ Nat.repr (n + 1) ≠ ""
    intro h
    have hd : ("-" ++ Nat.repr (n + 1)).data = ([] : List Char) := by rw [h]
    rw [String.data_append] at hd
    simp at hd

/-- The three NOT NULL text fields of the produced row, written out as the
source's fallback chain. -/
theorem supabase_row_text_fields (env : TimeEnv) (uid : Int) (m : Json) :
    (to_supabase_client_row env uid m).pyGet "display_name" =
      (if !(if m.isObj then pyOr (m.pyGet "display_name") (Json.str "") else Json.str "").truthy
       then pyOr (if m.isObj then pyOr (m.pyGet "username") (Json.str "") else Json.str "")
                 (Json.str (toString uid))
       else (if m.isObj then pyOr (m.pyGet "display_name") (Json.str "") else Json.str "")) ∧
    (to_supabase_client_row env uid m).pyGet "username" =
      (if !(if m.isObj then pyOr (m.pyGet "username") (Json.str "") else Json.str "").truthy
       then (to_supabase_client_row env uid m).pyGet "display_name"
       else (if m.isObj then pyOr (m.pyGet "username") (Json.str "") else Json.str "")) ∧
    (to_supabase_client_row env uid m).pyGet "public_name" =
      (if !(if m.isObj then pyOr (m.pyGet "public_name") (Json.str "") else Json.str "").truthy
       then (to_supabase_client_row env uid m).pyGet "display_name"
       else (if m.isObj then pyOr (m.pyGet "public_name") (Json.str "") else Json.str "")) :=
  ⟨rfl, rfl, rfl⟩

/-- C10 counterexample: a minimized dict whose `username` field is a truthy
non-string (the integer 1) flows through the fallback chain unchanged, so
the produced row's `display_name` is not a string at all, refuting the
claim for arbitrary minimized dicts. -/
theorem supabase_row_nonstring_counterexample :
    (to_supabase_client_row tenvC 7 (Json.obj [("username", Json.int 1)])).pyGet
        "display_name" = Json.int 1 ∧
    ((to_supabase_client_row tenvC 7 (Json.obj [("username", Json.int 1)])).pyGet
        "display_name").isStr = false :=
  ⟨rfl, rfl⟩

/-- C10 (amended): whenever the minimized dict's `username`, `display_name`
and `public_name` fields are each absent, null, or a string - as for
payloads whose text fields are API strings - the row produced by
`to_supabase_client_row` carries non-empty strings in its `username`,
`display_name` and `public_name` fields: `display_name` falls back to
`username` and then to the decimal string of `user_id`, `public_name`
falls back to `display_name`, and `username` falls back to `display_name`,
so the sink's NOT NULL text columns are satisfied. -/
theorem supabase_row_nonempty_text_columns (env : TimeEnv) (user_id : Int) (m : Json)
    (hu : (m.pyGet "username").isNullOrStr = true)
    (hd : (m.pyGet "display_name").isNullOrStr = true)
    (hp : (m.pyGet "public_name").isNullOrStr = true) :
    ∃ su sd sp : String, su ≠ "" ∧ sd ≠ "" ∧ sp ≠ "" ∧
      (to_supabase_client_row env user_id m).pyGet "username" = Json.str su ∧
      (to_supabase_client_row env user_id m).pyGet "display_name" = Json.str sd ∧
      (to_supabase_client_row env user_id m).pyGet "public_name" = Json.str sp := by
  have fieldStr : ∀ k : String, (m.pyGet k).isNullOrStr = true →
      ∃ s : String, (if m.isObj then pyOr (m.pyGet k) (Json.str "") else Json.str "") =
        Json.str s := by
    intro k hk
    by_cases hm : m.isObj
    · rcases hval : m.pyGet k with _ | b | n | s | xs | kvs <;>
        rw [hval] at hk <;>
        simp only [Json.isNullOrStr, Json.isNull, Json.isStr, Bool.or_eq_true] at hk
      · exact ⟨"", by simp [hm, hval, pyOr, Json.truthy]⟩
      · simp at hk
      · simp at hk
      · refine ⟨s, ?_⟩
        by_cases hs : s = "" <;> simp [hm, hval, pyOr, Json.truthy, hs]
      · simp at hk
      · simp at hk
    · exact ⟨"", by simp [hm]⟩
  obtain ⟨su0, hsu0⟩ := fieldStr "username" hu
  obtain ⟨sd0, hsd0⟩ := fieldStr "display_name" hd
  obtain ⟨sp0, hsp0⟩ := fieldStr "public_name" hp
  obtain ⟨hD, hU, hP⟩ := supabase_row_text_fields env user_id m
  rw [hsu0, hsd0] at hD
  rw [hsu0] at hU
  rw [hsp0] at hP
  have hDval : ∃ sd : String, sd ≠ "" ∧
      (to_supabase_client_row env user_id m).pyGet "display_name" = Json.str sd := by
    rw [hD]
    by_cases hsd : sd0 = ""
    · subst hsd
      by_cases hsu : su0 = ""
      · subst hsu
        exact ⟨toString user_id, int_toString_ne_empty _,
          by simp [pyOr, Json.truthy]⟩
      · exact ⟨su0, hsu, by simp [pyOr, Json.truthy, hsu]⟩
    · exact ⟨sd0, hsd, by simp [pyOr, Json.truthy, hsd]⟩
  obtain ⟨sd, hsdne, hsd⟩ := hDval
  rw [hsd] at hU hP
  refine ⟨if su0 = "" then sd else su0, sd, if sp0 = "" then sd else sp0, ?_, hsdne, ?_, ?_, hsd, ?_⟩
  · by_cases hsu : su0 = "" <;> simp [hsu, hsdne]
  · by_cases hsp : sp0 = "" <;> simp [hsp, hsdne]
  · rw [hU]
    by_cases hsu : su0 = "" <;> simp [hsu, Json.truthy]
  · rw [hP]
    by_cases hsp : sp0 = "" <;> simp [hsp, Json.truthy]

theorem supabase_row_nonempty_text_columns_witness :
    ((Json.obj [("public_name", Json.str "Bob")]).pyGet "username").isNullOrStr = true ∧
    ((Json.obj [("public_name", Json.str "Bob")]).pyGet "display_name").isNullOrStr = true ∧
    ((Json.obj [("public_name", Json.str "Bob")]).pyGet "public_name").isNullOrStr = true ∧
    (∃ su sd sp : String, su ≠ "" ∧ sd ≠ "" ∧ sp ≠ "" ∧
      (to_supabase_client_row tenvC 7 (Json.obj [("public_name", Json.str "Bob")])).pyGet
        "username" = Json.str su ∧
      (to_supabase_client_row tenvC 7 (Json.obj [("public_name", Json.str "Bob")])).pyGet
        "display_name" = Json.str sd ∧
      (to_supabase_client_row tenvC 7 (Json.obj [("public_name", Json.str "Bob")])).pyGet
        "public_name" = Json.str sp) :=
  ⟨rfl, rfl, rfl,
   supabase_row_nonempty_text_columns tenvC 7 _ rfl rfl rfl⟩

/-! ### C8 -/

/-- C8: a failing authentication collaborator (missing or placeholder
credential) is fatal: `_request_json` dies after a single `wait`, before
any `session.request` attempt, without retrying, and without producing an
ordinary request result. -/
theorem auth_failure_is_fatal (cfg : HttpCfg) (oracle : Nat → AttemptOutcome)
    (token : Option String) (msg : String)
    (herr : get_headers token = .error msg) :
    request_json cfg oracle token = ([.wait], .fatalAuth) ∧
    (∀ e ∈ (request_json cfg oracle token).1, e ≠ HttpEv.request) ∧
    (∀ j, (request_json cfg oracle token).2 ≠ .ok j) ∧
    (∀ raw, (request_json cfg oracle token).2 ≠ .nonJson raw) := by
  have hmain : request_json cfg oracle token = ([.wait], .fatalAuth) := by
    unfold request_json
    rw [herr]
    rfl
  refine ⟨hmain, ?_, ?_, ?_⟩
  · rw [hmain]
    intro e he
    simp only [List.mem_singleton] at he
    subst he
    simp
  · intro j
    rw [hmain]
    simp
  · intro raw
    rw [hmain]
    simp

theorem auth_failure_is_fatal_witness :
    get_headers (none : Option String) = .error "Missing oauth_access_token" ∧
    (request_json { max_retries := 6, backoff_base_s := 1, backoff_max_s := 60 }
        (fun _ => .netErr) none = ([.wait], .fatalAuth) ∧
      (∀ e ∈ (request_json { max_retries := 6, backoff_base_s := 1, backoff_max_s := 60 }
          (fun _ => .netErr) none).1, e ≠ HttpEv.request) ∧
      (∀ j, (request_json { max_retries := 6, backoff_base_s := 1, backoff_max_s := 60 }
          (fun _ => .netErr) none).2 ≠ .ok j) ∧
      (∀ raw, (request_json { max_retries := 6, backoff_base_s := 1, backoff_max_s := 60 }
          (fun _ => .netErr) none).2 ≠ .nonJson raw)) :=
  ⟨rfl, auth_failure_is_fatal _ _ none "Missing oauth_access_token" rfl⟩

/-! ### C2 -/

theorem requestGo_transient (cfg : HttpCfg) (oracle : Nat → AttemptOutcome) :
    ∀ (r a : Nat) (ls : Option Nat) (lt : Option (List Char)),
      (∀ i, a ≤ i → i ≤ a + r → transientOutcome (oracle i) = true) →
      requestGo cfg oracle false a (r + 1) false ls lt =
        (transientTrace cfg oracle a (r + 1),
         .exhausted ((oracle (a + r)).statusOf)
           (((oracle (a + r)).bodyOf).map (fun b => b.take 500))) := by
  intro r
  induction r with
  | zero =>
    intro a ls lt h
    have ha := h a (Nat.le_refl a) (Nat.le_add_right a 0)
    cases heq : oracle a with
    | netErr => rw [heq] at ha; simp [transientOutcome] at ha
    | resp s ra b js =>
      rw [heq] at ha
      simp only [transientOutcome] at ha
      simp only [requestGo, heq, ha, Bool.false_eq_true, if_false, if_true,
        transientTrace, attemptSleep, Nat.add_zero, AttemptOutcome.statusOf,
        AttemptOutcome.bodyOf, Option.map_some]
      rfl
  | succ r ih =>
    intro a ls lt h
    have ha := h a (Nat.le_refl a) (Nat.le_add_right a (r + 1))
    cases heq : oracle a with
    | netErr => rw [heq] at ha; simp [transientOutcome] at ha
    | resp s ra b js =>
      rw [heq] at ha
      simp only [transientOutcome] at ha
      have hrec := ih (a + 1) (some s) (some (b.take 500))
        (fun i h1 h2 => h i (Nat.le_of_succ_le h1) (by omega))
      rw [requestGo]
      simp only [heq, ha, Bool.false_eq_true, if_false, if_true]
      rw [hrec]
      simp only [transientTrace, attemptSleep, heq]
      have hidx : a + 1 + r = a + (r + 1) := by omega
      rw [hidx]

theorem transientTrace_count_wait (cfg : HttpCfg) (oracle : Nat → AttemptOutcome) :
    ∀ r a, (transientTrace cfg oracle a r).count HttpEv.wait = r := by
  intro r
  induction r with
  | zero => intro a; rfl
  | succ r ih =>
    intro a
    simp [transientTrace, List.count_cons, ih (a + 1)]

theorem transientTrace_count_request (cfg : HttpCfg) (oracle : Nat → AttemptOutcome) :
    ∀ r a, (transientTrace cfg oracle a r).count HttpEv.request = r := by
  intro r
  induction r with
  | zero => intro a; rfl
  | succ r ih =>
    intro a
    simp [transientTrace, List.count_cons, ih (a + 1)]

/-- C2: when authentication succeeds and every attempt's outcome is a
transient status (e.g. 503 throughout), `_request_json` performs exactly
`max_retries + 1` attempts, each preceded by a `RateLimiter.wait()` call
(the trace is `max_retries + 1` blocks `wait, request, sleep`), and then
raises the retry-exhaustion error carrying the last observed status code
and the body snippet truncated to 500 characters. -/
theorem transient_retry_exhaustion (cfg : HttpCfg) (oracle : Nat → AttemptOutcome)
    (token : Option String) (hs : List (String × String))
    (htok : get_headers token = .ok hs)
    (htrans : ∀ i, i ≤ cfg.max_retries → transientOutcome (oracle i) = true) :
    request_json cfg oracle token =
      (transientTrace cfg oracle 0 (cfg.max_retries + 1),
       .exhausted ((oracle cfg.max_retries).statusOf)
         (((oracle cfg.max_retries).bodyOf).map (fun b => b.take 500))) ∧
    (request_json cfg oracle token).1.count HttpEv.wait = cfg.max_retries + 1 ∧
    (request_json cfg oracle token).1.count HttpEv.request = cfg.max_retries + 1 ∧
    (∀ b, ((oracle cfg.max_retries).bodyOf).map (fun x => x.take 500) = some b →
      b.length ≤ 500) := by
  have hmain : request_json cfg oracle token =
      (transientTrace cfg oracle 0 (cfg.max_retries + 1),
       .exhausted ((oracle cfg.max_retries).statusOf)
         (((oracle cfg.max_retries).bodyOf).map (fun b => b.take 500))) := by
    show requestGo cfg oracle
      (match get_headers token with | .ok _ => false | .error _ => true) 0
      (cfg.max_retries + 1) false none none = _
    rw [htok]
    have hgo := requestGo_transient cfg oracle cfg.max_retries 0 none none
      (fun i _ h2 => htrans i (by omega))
    rw [Nat.zero_add] at hgo
    exact hgo
  refine ⟨hmain, ?_, ?_, ?_⟩
  · rw [hmain]
    exact transientTrace_count_wait cfg oracle _ 0
  · rw [hmain]
    exact transientTrace_count_request cfg oracle _ 0
  · intro b hb
    rcases h : (oracle cfg.max_retries).bodyOf with _ | x
    · rw [h] at hb; cases hb
    · rw [h] at hb
      injection hb with hbx
      rw [← hbx]
      rw [List.length_take]
      exact Nat.min_le_left _ _

theorem transient_retry_exhaustion_witness :
    get_headers (some "tok") = .ok [("freelancer-oauth-v1", "tok")] ∧
    (∀ i, i ≤ (3 : Nat) → transientOutcome (AttemptOutcome.resp 503 none ['a'] none) = true) ∧
    (request_json { max_retries := 3, backoff_base_s := 1, backoff_max_s := 60 }
        (fun _ => .resp 503 none ['a'] none) (some "tok") =
      (transientTrace { max_retries := 3, backoff_base_s := 1, backoff_max_s := 60 }
          (fun _ => .resp 503 none ['a'] none) 0 4,
       .exhausted (some 503) (some ['a'])) ∧
      (request_json { max_retries := 3, backoff_base_s := 1, backoff_max_s := 60 }
          (fun _ => .resp 503 none ['a'] none) (some "tok")).1.count HttpEv.wait = 4 ∧
      (request_json { max_retries := 3, backoff_base_s := 1, backoff_max_s := 60 }
          (fun _ => .resp 503 none ['a'] none) (some "tok")).1.count HttpEv.request = 4 ∧
      (∀ b, (some (['a'].take 500) : Option (List Char)) = some b → b.length ≤ 500)) := by
  refine ⟨rfl, fun i _ => rfl, ?_⟩
  have h := transient_retry_exhaustion
    { max_retries := 3, backoff_base_s := 1, backoff_max_s := 60 }
    (fun _ => .resp 503 none ['a'] none) (some "tok") [("freelancer-oauth-v1", "tok")]
    rfl (fun i _ => rfl)
  exact h

/-! ### C9 -/

theorem rlSleep_now (q : ℚ) (s : RLState) : (rlSleep q s).now = s.now + max 0 q := by
  unfold rlSleep
  split
  · rw [max_eq_right (le_of_lt (by assumption))]
  · rw [max_eq_left (le_of_not_lt (by assumption)), add_zero]

theorem rlSleep_lastTs (q : ℚ) (s : RLState) : (rlSleep q s).lastTs = s.lastTs := by
  unfold rlSleep
  split <;> rfl

theorem rlMonotonic_spec (env : RLEnv) (s : RLState) (hdrift : ∀ k, 0 ≤ env.drift k) :
    (rlMonotonic env s).1 = (rlMonotonic env s).2.now ∧
    s.now ≤ (rlMonotonic env s).2.now ∧
    (rlMonotonic env s).2.lastTs = s.lastTs := by
  refine ⟨rfl, ?_, rfl⟩
  show s.now ≤ s.now + env.drift s.tick
  linarith [hdrift s.tick]

theorem rlRpmStage_spec (cfg : RLCfg) (env : RLEnv) (now0 : ℚ) (s : RLState)
    (hdrift : ∀ k, 0 ≤ env.drift k) (hnow : now0 = s.now) :
    (rlRpmStage cfg env now0 s).1 = (rlRpmStage cfg env now0 s).2.now ∧
    s.now ≤ (rlRpmStage cfg env now0 s).2.now ∧
    (rlRpmStage cfg env now0 s).2.lastTs = s.lastTs := by
  unfold rlRpmStage
  rcases cfg.requests_per_minute with _ | rpm
  · exact ⟨hnow, le_refl _, rfl⟩
  · simp only []
    by_cases hrpm : (rpm != 0) = true
    · simp only [hrpm, if_true]
      by_cases hfull : rpm ≤ (s.window.dropWhile
          (fun t => decide (t < now0 - 60))).length
      · simp only [if_pos hfull]
        have h1 := rlMonotonic_spec env (rlSleep (max 0
          ((s.window.dropWhile (fun t => decide (t < now0 - 60))).headD 0 + 60 - now0))
          { s with window := s.window.dropWhile (fun t => decide (t < now0 - 60)) }) hdrift
        refine ⟨h1.1, ?_, ?_⟩
        · refine le_trans ?_ h1.2.1
          rw [rlSleep_now]
          show s.now ≤ s.now + _
          simp [le_max_left]
        · rw [h1.2.2, rlSleep_lastTs]
      · simp only [if_neg hfull]
        exact ⟨hnow, le_refl _, by first | rfl | trivial⟩
    · simp only [hrpm, Bool.false_eq_true, if_false]
      exact ⟨hnow, le_refl _, by first | rfl | trivial⟩

theorem rlIntervalStage_spec (cfg : RLCfg) (now1 : ℚ) (s : RLState) (hnow : now1 = s.now) :
    s.now ≤ (rlIntervalStage cfg now1 s).now ∧
    (rlIntervalStage cfg now1 s).lastTs = s.lastTs ∧
    (s.lastTs ≠ 0 → s.lastTs + cfg.min_interval_s ≤ (rlIntervalStage cfg now1 s).now) := by
  subst hnow
  unfold rlIntervalStage
  by_cases hz : s.lastTs ≠ 0
  · simp only [if_pos hz, rlSleep_now, rlSleep_lastTs]
    have hx := le_max_right (0 : ℚ) (cfg.min_interval_s - (s.now - s.lastTs))
    have hxx := le_max_left (0 : ℚ) (max 0 (cfg.min_interval_s - (s.now - s.lastTs)))
    have hy := le_max_right (0 : ℚ) (max 0 (cfg.min_interval_s - (s.now - s.lastTs)))
    refine ⟨by linarith, by first | rfl | trivial, fun _ => by linarith⟩
  · simp only [if_neg hz]
    exact ⟨le_refl _, by first | rfl | trivial, fun h => absurd h hz⟩

theorem rlJitterStage_spec (cfg : RLCfg) (env : RLEnv) (s : RLState)
    (hjit : ∀ k, 0 ≤ env.jitter k) :
    s.now ≤ (rlJitterStage cfg env s).now ∧
    (rlJitterStage cfg env s).lastTs = s.lastTs := by
  unfold rlJitterStage
  split
  · rw [rlSleep_now, rlSleep_lastTs]
    refine ⟨?_, rfl⟩
    show s.now ≤ s.now + _
    simp [le_max_left]
  · exact ⟨le_refl _, rfl⟩

/-- One `RateLimiter.wait` call under nonnegative drift and jitter: the
clock only advances, the recorded timestamp is the final clock reading,
and - when the previous recorded timestamp is nonzero, hence not mistaken
for the unset 0.0 sentinel - it lies at least `min_interval_s` later. -/
theorem wait_step (cfg : RLCfg) (env : RLEnv) (s : RLState)
    (hdrift : ∀ k, 0 ≤ env.drift k) (hjit : ∀ k, 0 ≤ env.jitter k) :
    s.now ≤ (RateLimiter.wait cfg env s).now ∧
    (RateLimiter.wait cfg env s).lastTs = (RateLimiter.wait cfg env s).now ∧
    (s.lastTs ≠ 0 →
      s.lastTs + cfg.min_interval_s ≤ (RateLimiter.wait cfg env s).lastTs) := by
  have h0 := rlMonotonic_spec env s hdrift
  have h1 := rlRpmStage_spec cfg env (rlMonotonic env s).1 (rlMonotonic env s).2 hdrift h0.1
  have h2 := rlIntervalStage_spec cfg
    (rlRpmStage cfg env (rlMonotonic env s).1 (rlMonotonic env s).2).1
    (rlRpmStage cfg env (rlMonotonic env s).1 (rlMonotonic env s).2).2 h1.1
  have h3 := rlJitterStage_spec cfg env
    (rlIntervalStage cfg
      (rlRpmStage cfg env (rlMonotonic env s).1 (rlMonotonic env s).2).1
      (rlRpmStage cfg env (rlMonotonic env s).1 (rlMonotonic env s).2).2) hjit
  have h4 := rlMonotonic_spec env
    (rlJitterStage cfg env
      (rlIntervalStage cfg
        (rlRpmStage cfg env (rlMonotonic env s).1 (rlMonotonic env s).2).1
        (rlRpmStage cfg env (rlMonotonic env s).1 (rlMonotonic env s).2).2)) hdrift
  have hw : ∀ b : Bool, ∀ s4 : RLState, ∀ t : ℚ,
      ((if b = true then { s4 with window := s4.window ++ [t] } else s4) : RLState).now =
        s4.now ∧
      ((if b = true then { s4 with window := s4.window ++ [t] } else s4) : RLState).lastTs =
        s4.lastTs := by
    intro b s4 t
    cases b <;> simp
  constructor
  · show s.now ≤ (RateLimiter.wait cfg env s).now
    unfold RateLimiter.wait
    rw [(hw _ _ _).1]
    simp only []
    calc s.now ≤ (rlMonotonic env s).2.now := h0.2.1
      _ ≤ _ := h1.2.1
      _ ≤ _ := h2.1
      _ ≤ _ := h3.1
      _ ≤ _ := h4.2.1
  constructor
  · show (RateLimiter.wait cfg env s).lastTs = (RateLimiter.wait cfg env s).now
    unfold RateLimiter.wait
    rw [(hw _ _ _).1, (hw _ _ _).2]
    simp only []
    exact h4.1
  · intro hne
    show s.lastTs + cfg.min_interval_s ≤ (RateLimiter.wait cfg env s).lastTs
    unfold RateLimiter.wait
    rw [(hw _ _ _).2]
    simp only []
    rw [h4.1]
    have hlast2 : (rlRpmStage cfg env (rlMonotonic env s).1
        (rlMonotonic env s).2).2.lastTs = s.lastTs := by
      rw [h1.2.2, h0.2.2]
    have hkey := h2.2.2 (by rw [hlast2]; exact hne)
    rw [hlast2] at hkey
    calc s.lastTs + cfg.min_interval_s ≤ _ := hkey
      _ ≤ _ := h3.1
      _ ≤ _ := h4.2.1

theorem rlRecord_chain_aux (cfg : RLCfg) (env : RLEnv)
    (hdrift : ∀ k, 0 ≤ env.drift k) (hjit : ∀ k, 0 ≤ env.jitter k) :
    ∀ (n : Nat) (s : RLState), 0 < s.now → s.lastTs = s.now →
      List.Chain' (fun a b : ℚ => a + cfg.min_interval_s ≤ b)
        (s.lastTs :: rlRecord cfg env n s) := by
  intro n
  induction n with
  | zero => intro s _ _; simp [rlRecord]
  | succ n ih =>
    intro s hpos hrec
    obtain ⟨hmono, hrecord, hgap⟩ := wait_step cfg env s hdrift hjit
    rw [rlRecord]
    refine List.chain'_cons.mpr ⟨?_, ?_⟩
    · exact hgap (by rw [hrec]; exact ne_of_gt hpos)
    · exact ih (RateLimiter.wait cfg env s) (lt_of_lt_of_le hpos hmono) hrecord

/-- C9 counterexample: the claim fails as stated.  With the monotonic
clock starting at exactly 0.0 (a legal reading), zero drift and no jitter,
the first recorded timestamp is 0.0, which `if self._last_ts:` then treats
as the unset sentinel, so the second call enforces no interval: two calls
with `min_interval_s = 1` record `[0, 0]`, whose successive difference is
below the minimum interval. -/
theorem rate_limiter_zero_start_counterexample :
    rlRecord { min_interval_s := 1, requests_per_minute := none, jitter_s := 0 }
        { drift := fun _ => 0, jitter := fun _ => 0 } 2 (rlInit 0) = [0, 0] ∧
    ¬ List.Chain' (fun a b : ℚ => a + 1 ≤ b)
        (rlRecord { min_interval_s := 1, requests_per_minute := none, jitter_s := 0 }
          { drift := fun _ => 0, jitter := fun _ => 0 } 2 (rlInit 0)) := by
  have h : rlRecord { min_interval_s := 1, requests_per_minute := none, jitter_s := 0 }
      { drift := fun _ => 0, jitter := fun _ => 0 } 2 (rlInit 0) = [0, 0] := by
    norm_num [rlRecord, RateLimiter.wait, rlMonotonic, rlRpmStage, rlIntervalStage,
      rlJitterStage, rlSleep, rlInit, rpmTruthy]
  refine ⟨h, ?_⟩
  rw [h]
  intro hc
  have := (List.chain'_cons.mp hc).1
  linarith

/-- C9 (amended): for every `N`, calling `wait()` `N` times on a fresh
limiter with `min_interval_s = I` yields recorded timestamps in which every
two successive entries differ by at least `I` (jitter and drift only add
delay), provided the monotonic clock reads positive values - the code's
`if self._last_ts:` truthiness test mistakes a recorded timestamp of
exactly 0.0 for "no previous call", so a clock that can read 0.0 defeats
the interval (see the counterexample). -/
theorem rate_limiter_min_interval_spacing (cfg : RLCfg) (env : RLEnv) (t0 : ℚ) (n : Nat)
    (hdrift : ∀ k, 0 ≤ env.drift k) (hjit : ∀ k, 0 ≤ env.jitter k) (ht0 : 0 < t0) :
    List.Chain' (fun a b : ℚ => a + cfg.min_interval_s ≤ b)
      (rlRecord cfg env n (rlInit t0)) := by
  cases n with
  | zero => simp [rlRecord]
  | succ n =>
    rw [rlRecord]
    obtain ⟨hmono, hrecord, _⟩ := wait_step cfg env (rlInit t0) hdrift hjit
    exact rlRecord_chain_aux cfg env hdrift hjit n _ (lt_of_lt_of_le ht0 hmono) hrecord

theorem rate_limiter_min_interval_spacing_witness :
    (∀ k : Nat, (0 : ℚ) ≤ (fun _ => (0 : ℚ)) k) ∧ ((0 : ℚ) < 5) ∧
    List.Chain' (fun a b : ℚ => a + 1 ≤ b)
      (rlRecord { min_interval_s := 1, requests_per_minute := some 50, jitter_s := 0 }
        { drift := fun _ => 0, jitter := fun _ => 0 } 3 (rlInit 5)) :=
  ⟨fun _ => le_refl 0, by norm_num,
   rate_limiter_min_interval_spacing
     { min_interval_s := 1, requests_per_minute := some 50, jitter_s := 0 }
     { drift := fun _ => 0, jitter := fun _ => 0 } 5 3
     (fun _ => le_refl 0) (fun _ => le_refl 0) (by norm_num)⟩

/-! ### C3 -/

/-- C3: in the end-to-end scenario (directory page `[{id:10},{id:11}]` at
offset 0 with page size 2, empty page at offset 2, entity 10 reviewed by
ids 5 and 6, entity 11 unreviewed), the pipeline writes exactly two lead
records - for entity 10 (reviewer ids `[5, 6]`) and entity 11 (no
reviewers), in that order - the persisted cursor ends at `offset = 2`,
`index_in_page = 0`, and the run terminates normally (`some`) after
fetching the empty page at offset 2. -/
theorem end_to_end_scenario :
    (run_lead_generation cfg2 tenvC wScenario 2 .missing Cache.empty).isSome = true ∧
    (run_lead_generation cfg2 tenvC wScenario 2 .missing Cache.empty).map
      (fun r => r.1.filterMap (fun e =>
        match e with
        | .logAppend fid ids revs => some (leadRecordJson fid ids revs)
        | _ => none)) =
      some [leadRecordJson 10 [5, 6] [(5, minimize_user user5), (6, minimize_user user6)],
            leadRecordJson 11 [] []] ∧
    (run_lead_generation cfg2 tenvC wScenario 2 .missing Cache.empty).map
      (fun r => (r.2.2.offset, r.2.2.index_in_page)) = some (2, 0) ∧
    extract_users (wScenario.directoryPayload 2) = [] :=
  ⟨rfl, rfl, rfl, rfl⟩

/-! ### C5 -/

theorem noClosedUid_nil (uid : Int) : NoClosedUid uid [] :=
  ⟨fun _ h => absurd h (List.not_mem_nil _), fun _ h => absurd h (List.not_mem_nil _),
   fun _ _ _ h => absurd h (List.not_mem_nil _)⟩

theorem noClosedUid_append (uid : Int) (xs ys : List Ev)
    (hx : NoClosedUid uid xs) (hy : NoClosedUid uid ys) : NoClosedUid uid (xs ++ ys) := by
  refine ⟨?_, ?_, ?_⟩
  · intro rows hmem
    rcases List.mem_append.mp hmem with h | h
    · exact hx.1 rows h
    · exact hy.1 rows h
  · intro rows hmem
    rcases List.mem_append.mp hmem with h | h
    · exact hx.2.1 rows h
    · exact hy.2.1 rows h
  · intro fid ids revs hmem
    rcases List.mem_append.mp hmem with h | h
    · exact hx.2.2 fid ids revs h
    · exact hy.2.2 fid ids revs h

theorem noClosedUid_cursorSave (uid : Int) (st : PState) (ys : List Ev)
    (hy : NoClosedUid uid ys) : NoClosedUid uid (.cursorSave st :: ys) := by
  refine ⟨?_, ?_, ?_⟩
  · intro rows hmem
    rcases List.mem_cons.mp hmem with h | h
    · cases h
    · exact hy.1 rows h
  · intro rows hmem
    rcases List.mem_cons.mp hmem with h | h
    · cases h
    · exact hy.2.1 rows h
  · intro fid ids revs hmem
    rcases List.mem_cons.mp hmem with h | h
    · cases h
    · exact hy.2.2 fid ids revs h

theorem supabase_row_id (env : TimeEnv) (u : Int) (m : Json) :
    (to_supabase_client_row env u m).pyGet "id" = Json.int u := rfl

theorem processBatch_rows_spec (env : TimeEnv) (w : World) (uid : Int) (b : List Int)
    (hClosed : ∀ m, (uid, m) ∈ extract_users_map (w.usersPayload b) →
      ((minimize_user m).pyGet "closed").truthy = true) :
    ∀ l ⊆ extract_users_map (w.usersPayload b),
      ∀ acc : List (Int × Json) × List Json,
        (∀ m, (uid, m) ∉ acc.1) → (∀ r ∈ acc.2, r.pyGet "id" ≠ Json.int uid) →
        (∀ m, (uid, m) ∉ (l.foldl
          (fun (acc : List (Int × Json) × List Json) p =>
            if ((minimize_user p.2).pyGet "closed").truthy then acc
            else (acc.1 ++ [(p.1, minimize_user p.2)],
                  acc.2 ++ [to_supabase_client_row env p.1 (minimize_user p.2)])) acc).1) ∧
        (∀ r ∈ (l.foldl
          (fun (acc : List (Int × Json) × List Json) p =>
            if ((minimize_user p.2).pyGet "closed").truthy then acc
            else (acc.1 ++ [(p.1, minimize_user p.2)],
                  acc.2 ++ [to_supabase_client_row env p.1 (minimize_user p.2)])) acc).2,
          r.pyGet "id" ≠ Json.int uid) := by
  intro l
  induction l with
  | nil => intro _ acc h1 h2; exact ⟨h1, h2⟩
  | cons p rest ih =>
    intro hsub acc h1 h2
    simp only [List.foldl_cons]
    by_cases hcl : ((minimize_user p.2).pyGet "closed").truthy = true
    · simp only [hcl, if_true]
      exact ih (fun x hx => hsub (List.mem_cons_of_mem p hx)) acc h1 h2
    · simp only [hcl, Bool.false_eq_true, if_false]
      have hne : p.1 ≠ uid := by
        intro he
        exact hcl (hClosed p.2 (by
          have : p ∈ extract_users_map (w.usersPayload b) :=
            hsub (List.mem_cons_self p rest)
          rw [← he]
          exact this))
      refine ih (fun x hx => hsub (List.mem_cons_of_mem p hx)) _ ?_ ?_
      · intro m hm
        rcases List.mem_append.mp hm with h | h
        · exact h1 m h
        · simp only [List.mem_singleton, Prod.mk.injEq] at h
          exact hne h.1.symm
      · intro r hr
        rcases List.mem_append.mp hr with h | h
        · exact h2 r h
        · simp only [List.mem_singleton] at h
          subst h
          rw [supabase_row_id]
          intro he
          injection he with he
          exact hne he

theorem upsert_users_mem (rows : List Json) (e : Ev) (he : e ∈ upsert_users rows) :
    e = .sinkUpsert (rows.filter (fun r => r.isObj && !(r.pyGet "id").isNull)) := by
  simp only [upsert_users] at he
  split at he
  · cases he
  · rcases List.mem_singleton.mp he with h
    exact h

theorem processBatch_closed (env : TimeEnv) (w : World) (uid : Int) (cache : Cache)
    (b : List Int)
    (hClosed : ∀ m, (uid, m) ∈ extract_users_map (w.usersPayload b) →
      ((minimize_user m).pyGet "closed").truthy = true) :
    NoClosedUid uid (processBatch env w cache b).1 ∧
    (processBatch env w cache b).2.get uid = cache.get uid := by
  obtain ⟨hrows1, hrows2⟩ := processBatch_rows_spec env w uid b hClosed
    (extract_users_map (w.usersPayload b)) (List.Subset.refl _) ([], [])
    (fun m h => absurd h (List.not_mem_nil _)) (fun r h => absurd h (List.not_mem_nil _))
  constructor
  · refine ⟨?_, ?_, ?_⟩
    · intro rows hmem m
      simp only [processBatch] at hmem
      rcases List.mem_append.mp hmem with h | h
      · have := upsert_users_mem _ _ h
        cases this
      · rcases List.mem_singleton.mp h with h2
        injection h2 with h2
        rw [h2]
        exact hrows1 m
    · intro rows hmem r hr
      simp only [processBatch] at hmem
      rcases List.mem_append.mp hmem with h | h
      · have heq := upsert_users_mem _ _ h
        injection heq with heq
        rw [heq] at hr
        exact hrows2 r (List.mem_of_mem_filter hr)
      · rcases List.mem_singleton.mp h with h2
        cases h2
    · intro fid ids revs hmem
      simp only [processBatch] at hmem
      rcases List.mem_append.mp hmem with h | h
      · have := upsert_users_mem _ _ h
        cases this
      · rcases List.mem_singleton.mp h with h2
        cases h2
  · show (cache.set_many _).get uid = cache.get uid
    apply cache_set_many_not_mem
    intro hmem
    rcases List.mem_map.mp hmem with ⟨⟨a, b2⟩, hp, hfst⟩
    obtain rfl : a = uid := hfst
    exact hrows1 b2 hp

theorem runBatches_closed (env : TimeEnv) (w : World) (uid : Int)
    (hClosed : ∀ b m, (uid, m) ∈ extract_users_map (w.usersPayload b) →
      ((minimize_user m).pyGet "closed").truthy = true) :
    ∀ (bs : List (List Int)) (cache : Cache),
      NoClosedUid uid (runBatches env w bs cache).1 ∧
      (runBatches env w bs cache).2.get uid = cache.get uid := by
  intro bs
  induction bs with
  | nil => intro cache; exact ⟨noClosedUid_nil uid, rfl⟩
  | cons b rest ih =>
    intro cache
    obtain ⟨h1, h2⟩ := processBatch_closed env w uid cache b (hClosed b)
    obtain ⟨h3, h4⟩ := ih (processBatch env w cache b).2
    exact ⟨noClosedUid_append uid _ _ h1 h3, by rw [show (runBatches env w (b :: rest) cache).2
      = (runBatches env w rest (processBatch env w cache b).2).2 from rfl, h4, h2]⟩

theorem entityEvents_closed (cfg : PCfg) (env : TimeEnv) (w : World) (uid : Int)
    (cache : Cache) (fid : Int)
    (hClosed : ∀ b m, (uid, m) ∈ extract_users_map (w.usersPayload b) →
      ((minimize_user m).pyGet "closed").truthy = true)
    (hcache : cache.get uid = none) :
    NoClosedUid uid (entityEvents cfg env w cache fid).1 ∧
    (entityEvents cfg env w cache fid).2.get uid = none := by
  unfold entityEvents
  simp only []
  set missing := (sorted_reviewer_ids (w.reviewsPayload fid)).filter
    (fun rid => (cache.get rid).isNone) with hmissing
  by_cases hemp : missing.isEmpty
  · simp only [hemp, if_true]
    refine ⟨noClosedUid_append uid _ _ (noClosedUid_nil uid) ?_, hcache⟩
    refine ⟨fun _ h => ?_, fun _ h => ?_, fun fid' ids revs h d hd => ?_⟩
    · rcases List.mem_singleton.mp h with h2; cases h2
    · rcases List.mem_singleton.mp h with h2; cases h2
    · rcases List.mem_singleton.mp h with h2
      injection h2 with _ _ h3
      rw [h3] at hd
      rcases List.mem_filterMap.mp hd with ⟨rid, _, hf⟩
      rcases hcg : cache.get rid with _ | dd
      · rw [hcg] at hf; cases hf
      · rw [hcg] at hf
        simp only [] at hf
        split at hf
        · injection hf with hf2
          rw [Prod.mk.injEq] at hf2
          rw [hf2.1] at hcg
          rw [hcg] at hcache
          cases hcache
        · cases hf
  · simp only [hemp, Bool.false_eq_true, if_false]
    obtain ⟨h1, h2⟩ := runBatches_closed env w uid hClosed
      (chunked missing cfg.users_batch_size) cache
    rw [hcache] at h2
    refine ⟨noClosedUid_append uid _ _ h1 ?_, h2⟩
    refine ⟨fun _ h => ?_, fun _ h => ?_, fun fid' ids revs h d hd => ?_⟩
    · rcases List.mem_singleton.mp h with h3; cases h3
    · rcases List.mem_singleton.mp h with h3; cases h3
    · rcases List.mem_singleton.mp h with h3
      injection h3 with _ _ h4
      rw [h4] at hd
      rcases List.mem_filterMap.mp hd with ⟨rid, _, hf⟩
      rcases hcg : (runBatches env w (chunked missing cfg.users_batch_size) cache).2.get rid
        with _ | dd
      · rw [hcg] at hf; cases hf
      · rw [hcg] at hf
        simp only [] at hf
        split at hf
        · injection hf with hf2
          rw [Prod.mk.injEq] at hf2
          rw [hf2.1] at hcg
          rw [hcg] at h2
          cases h2
        · cases hf

theorem pageRun_closed (cfg : PCfg) (env : TimeEnv) (w : World) (uid : Int)
    (hClosed : ∀ b m, (uid, m) ∈ extract_users_map (w.usersPayload b) →
      ((minimize_user m).pyGet "closed").truthy = true) :
    ∀ (users : List Json) (idx idx0 : Nat) (cache : Cache) (saved : PState) (offset : Nat),
      cache.get uid = none →
      NoClosedUid uid (pageRun cfg env w users idx idx0 cache saved offset).1 ∧
      (pageRun cfg env w users idx idx0 cache saved offset).2.1.get uid = none := by
  intro users
  induction users with
  | nil => intro idx idx0 cache saved offset h; exact ⟨noClosedUid_nil uid, h⟩
  | cons u rest ih =>
    intro idx idx0 cache saved offset h
    rw [pageRun]
    split
    · exact ih (idx + 1) idx0 cache saved offset h
    · split
      · simp only []
        obtain ⟨h1, h2⟩ := ih (idx + 1) idx0 cache
          { saved with index_in_page := idx + 1 } offset h
        exact ⟨noClosedUid_cursorSave uid _ _ h1, h2⟩
      · rename_i fid heq
        simp only []
        obtain ⟨he1, he2⟩ := entityEvents_closed cfg env w uid cache fid hClosed h
        obtain ⟨h1, h2⟩ := ih (idx + 1) idx0 (entityEvents cfg env w cache fid).2
          { offset := offset, index_in_page := idx + 1,
            limit := some (Json.int (Int.ofNat cfg.directory_limit)) } offset he2
        exact ⟨noClosedUid_append uid _ _ he1 (noClosedUid_cursorSave uid _ _ h1), h2⟩

theorem runLoop_closed (cfg : PCfg) (env : TimeEnv) (w : World) (uid : Int)
    (hClosed : ∀ b m, (uid, m) ∈ extract_users_map (w.usersPayload b) →
      ((minimize_user m).pyGet "closed").truthy = true) :
    ∀ (fuel offset idx0 : Nat) (cache : Cache) (saved : PState),
      cache.get uid = none →
      ∀ r, runLoop cfg env w fuel offset idx0 cache saved = some r →
        NoClosedUid uid r.1 ∧ r.2.1.get uid = none := by
  intro fuel
  induction fuel with
  | zero => intro offset idx0 cache saved h r hr; cases hr
  | succ fuel ih =>
    intro offset idx0 cache saved h r hr
    rw [runLoop] at hr
    by_cases hemp : (extract_users (w.directoryPayload offset)).isEmpty
    · rw [if_pos hemp] at hr
      injection hr with hr
      rw [← hr]
      exact ⟨noClosedUid_nil uid, h⟩
    · rw [if_neg hemp] at hr
      simp only [] at hr
      obtain ⟨hp1, hp2⟩ := pageRun_closed cfg env w uid hClosed
        (extract_users (w.directoryPayload offset)) 0 idx0 cache saved offset h
      rcases hrec : runLoop cfg env w fuel (offset + cfg.directory_limit) 0
          (pageRun cfg env w (extract_users (w.directoryPayload offset))
            0 idx0 cache saved offset).2.1
          { offset := offset + cfg.directory_limit, index_in_page := 0,
            limit := (pageRun cfg env w (extract_users (w.directoryPayload offset))
              0 idx0 cache saved offset).2.2.limit } with _ | r2
      · rw [hrec] at hr; cases hr
      · rw [hrec] at hr
        injection hr with hr
        rw [← hr]
        obtain ⟨h1, h2⟩ := ih (offset + cfg.directory_limit) 0 _ _ hp2 r2 hrec
        exact ⟨noClosedUid_append uid _ _ hp1 (noClosedUid_cursorSave uid _ _ h1), h2⟩

/-- C5: if every user object the API returns for `uid` minimizes to a
closed account, and `uid` is not already cached, then nothing keyed by
`uid` is ever written to the SQLite cache or upserted to the remote sink
during a run, `uid` is absent from the final cache, and no lead record of
the run resolves a reviewer detail entry for `uid` - while `uid` may still
appear in a record's `reviewer_ids` (the witness exhibits such a run). -/
theorem closed_account_never_persisted (cfg : PCfg) (env : TimeEnv) (w : World)
    (uid : Int) (fuel offset idx0 : Nat) (cache : Cache) (saved : PState)
    (hClosed : ∀ b m, (uid, m) ∈ extract_users_map (w.usersPayload b) →
      ((minimize_user m).pyGet "closed").truthy = true)
    (hcache : cache.get uid = none) :
    ∀ r, runLoop cfg env w fuel offset idx0 cache saved = some r →
      NoClosedUid uid r.1 ∧ r.2.1.get uid = none :=
  runLoop_closed cfg env w uid hClosed fuel offset idx0 cache saved hcache

theorem closed_account_never_persisted_witness :
    (∀ b m, ((5 : Int), m) ∈ extract_users_map (wClosed.usersPayload b) →
      ((minimize_user m).pyGet "closed").truthy = true) ∧
    Cache.empty.get 5 = none ∧
    (∀ r, runLoop cfg2 tenvC wClosed 2 0 0 Cache.empty psInit = some r →
      NoClosedUid 5 r.1 ∧ r.2.1.get 5 = none) ∧
    (runLoop cfg2 tenvC wClosed 2 0 0 Cache.empty psInit).map
      (fun r => r.1.filterMap (fun e =>
        match e with
        | .logAppend fid ids revs => some (fid, ids, revs.map (fun p => p.1))
        | _ => none)) = some [(10, [5, 6], [6]), (11, [], [])] ∧
    (5 : Int) ∈ [(5 : Int), 6] := by
  have hClosed : ∀ b m, ((5 : Int), m) ∈ extract_users_map (wClosed.usersPayload b) →
      ((minimize_user m).pyGet "closed").truthy = true := by
    intro b m hm
    have he : extract_users_map (wClosed.usersPayload b) =
        [(5, user5closed), (6, user6)] := rfl
    rw [he] at hm
    rcases List.mem_cons.mp hm with h | h
    · injection h with _ h2
      rw [h2]
      rfl
    · rcases List.mem_singleton.mp h with h2
      injection h2 with h3 _
      cases h3
  exact ⟨hClosed, rfl,
    closed_account_never_persisted cfg2 tenvC wClosed 5 2 0 0 Cache.empty psInit
      hClosed rfl,
    rfl, by decide⟩

/-! ### C1: trace algebra -/

theorem appendsOf_append (xs ys : List Ev) :
    appendsOf (xs ++ ys) = appendsOf xs ++ appendsOf ys :=
  List.filterMap_append xs ys _

theorem appendsOf_sideEffects (xs : List Ev) (hx : ∀ e ∈ xs, isSideEffect e = true) :
    appendsOf xs = [] := by
  induction xs with
  | nil => rfl
  | cons e rest ih =>
    have he := hx e (List.mem_cons_self e rest)
    cases e with
    | sinkUpsert r => exact ih (fun x hxm => hx x (List.mem_cons_of_mem _ hxm))
    | cacheWrite r => exact ih (fun x hxm => hx x (List.mem_cons_of_mem _ hxm))
    | logAppend f i r => cases he
    | cursorSave st => cases he

theorem lastSaved_append (xs ys : List Ev) (s0 : PState) :
    lastSaved (xs ++ ys) s0 = lastSaved ys (lastSaved xs s0) :=
  List.foldl_append _ s0 xs ys

theorem lastSaved_sideEffects (xs : List Ev) (hx : ∀ e ∈ xs, isSideEffect e = true)
    (s0 : PState) : lastSaved xs s0 = s0 := by
  induction xs generalizing s0 with
  | nil => rfl
  | cons e rest ih =>
    have he := hx e (List.mem_cons_self e rest)
    cases e with
    | sinkUpsert r => exact ih (fun x hxm => hx x (List.mem_cons_of_mem _ hxm)) s0
    | cacheWrite r => exact ih (fun x hxm => hx x (List.mem_cons_of_mem _ hxm)) s0
    | logAppend f i r => cases he
    | cursorSave st => cases he

theorem lastSaved_cursorSave (st : PState) (ys : List Ev) (s0 : PState) :
    lastSaved (.cursorSave st :: ys) s0 = lastSaved ys st := rfl

theorem lastSaved_logAppend (f : Int) (i : List Int) (r : List (Int × Json))
    (ys : List Ev) (s0 : PState) :
    lastSaved (.logAppend f i r :: ys) s0 = lastSaved ys s0 := rfl

/-- `inflight` as a fold from an arbitrary accumulator. -/
theorem inflight_fold_append (xs ys : List Ev) (acc : List Int) :
    (xs ++ ys).foldl (fun acc e =>
      match e with
      | .cursorSave _ => []
      | .logAppend fid _ _ => acc ++ [fid]
      | _ => acc) acc =
    ys.foldl (fun acc e =>
      match e with
      | .cursorSave _ => []
      | .logAppend fid _ _ => acc ++ [fid]
      | _ => acc) (xs.foldl (fun acc e =>
      match e with
      | .cursorSave _ => []
      | .logAppend fid _ _ => acc ++ [fid]
      | _ => acc) acc) :=
  List.foldl_append _ acc xs ys

theorem inflight_fold_sideEffects (xs : List Ev) (hx : ∀ e ∈ xs, isSideEffect e = true) :
    ∀ acc, xs.foldl (fun acc e =>
      match e with
      | .cursorSave _ => []
      | .logAppend fid _ _ => acc ++ [fid]
      | _ => acc) acc = acc := by
  induction xs with
  | nil => intro acc; rfl
  | cons e rest ih =>
    intro acc
    have he := hx e (List.mem_cons_self e rest)
    cases e with
    | sinkUpsert r => exact ih (fun x hxm => hx x (List.mem_cons_of_mem _ hxm)) acc
    | cacheWrite r => exact ih (fun x hxm => hx x (List.mem_cons_of_mem _ hxm)) acc
    | logAppend f i r => cases he
    | cursorSave st => cases he

theorem inflight_cursorSave (st : PState) (ys : List Ev) :
    inflight (.cursorSave st :: ys) = inflight ys := rfl

theorem inflight_after_save (xs : List Ev) (st : PState) (ys : List Ev) :
    inflight (xs ++ .cursorSave st :: ys) = inflight ys := by
  unfold inflight
  rw [inflight_fold_append]
  rfl

theorem runBatches_sideEffects (env : TimeEnv) (w : World) :
    ∀ (bs : List (List Int)) (cache : Cache),
      ∀ e ∈ (runBatches env w bs cache).1, isSideEffect e = true := by
  intro bs
  induction bs with
  | nil => intro cache e he; cases he
  | cons b rest ih =>
    intro cache e he
    rw [show (runBatches env w (b :: rest) cache).1
      = (processBatch env w cache b).1 ++ (runBatches env w rest
          (processBatch env w cache b).2).1 from rfl] at he
    rcases List.mem_append.mp he with h | h
    · simp only [processBatch] at h
      rcases List.mem_append.mp h with h2 | h2
      · rw [upsert_users_mem _ _ h2]
        rfl
      · rcases List.mem_singleton.mp h2 with h3
        rw [h3]
        rfl
    · exact ih (processBatch env w cache b).2 e h

theorem entityEvents_shape (cfg : PCfg) (env : TimeEnv) (w : World) (cache : Cache)
    (fid : Int) :
    ∃ bevs ids revs, (entityEvents cfg env w cache fid).1 =
      bevs ++ [.logAppend fid ids revs] ∧ ∀ e ∈ bevs, isSideEffect e = true := by
  unfold entityEvents
  simp only []
  split
  · exact ⟨[], _, _, rfl, fun e he => absurd he (List.not_mem_nil e)⟩
  · exact ⟨_, _, _, rfl, runBatches_sideEffects env w _ cache⟩

theorem appendsOf_entityEvents (cfg : PCfg) (env : TimeEnv) (w : World) (cache : Cache)
    (fid : Int) : appendsOf (entityEvents cfg env w cache fid).1 = [fid] := by
  obtain ⟨bevs, ids, revs, heq, hse⟩ := entityEvents_shape cfg env w cache fid
  rw [heq, appendsOf_append, appendsOf_sideEffects bevs hse]
  rfl

theorem appendsOf_pageRun (cfg : PCfg) (env : TimeEnv) (w : World) (offset : Nat) :
    ∀ (users : List Json) (idx idx0 : Nat) (cache : Cache) (saved : PState),
      appendsOf (pageRun cfg env w users idx idx0 cache saved offset).1 =
        pageAppends users idx idx0 := by
  intro users
  induction users with
  | nil => intro idx idx0 cache saved; rfl
  | cons u rest ih =>
    intro idx idx0 cache saved
    rw [pageRun, pageAppends]
    split
    · exact ih (idx + 1) idx0 cache saved
    · split
      · simp only []
        show appendsOf (.cursorSave _ :: _) = _
        show appendsOf _ = _
        exact ih (idx + 1) idx0 cache _
      · rename_i fid heq
        simp only []
        rw [appendsOf_append, appendsOf_entityEvents]
        show fid :: appendsOf (.cursorSave _ :: _) = _
        show fid :: appendsOf (pageRun cfg env w rest (idx + 1) idx0 _ _ offset).1 = _
        rw [ih (idx + 1) idx0 _ _]

theorem pageAppends_skip :
    ∀ (users : List Json) (idx j : Nat), idx ≤ j →
      pageAppends users idx j = pageAppends (users.drop (j - idx)) j j := by
  intro users
  induction users with
  | nil => intro idx j h; rw [List.drop_nil]; rfl
  | cons u rest ih =>
    intro idx j h
    rcases Nat.eq_or_lt_of_le h with heq | hlt
    · subst heq
      rw [Nat.sub_self, List.drop_zero]
    · rw [pageAppends, if_pos hlt, ih (idx + 1) j hlt]
      have : j - idx = (j - (idx + 1)) + 1 := by omega
      rw [this, List.drop_succ_cons]

theorem pageRun_skip (cfg : PCfg) (env : TimeEnv) (w : World) (offset : Nat) :
    ∀ (users : List Json) (idx j : Nat) (cache : Cache) (saved : PState), idx ≤ j →
      pageRun cfg env w users idx j cache saved offset =
        pageRun cfg env w (users.drop (j - idx)) j j cache saved offset := by
  intro users
  induction users with
  | nil => intro idx j cache saved h; rw [List.drop_nil]; rfl
  | cons u rest ih =>
    intro idx j cache saved h
    rcases Nat.eq_or_lt_of_le h with heq | hlt
    · subst heq
      rw [Nat.sub_self, List.drop_zero]
    · rw [pageRun, if_pos hlt, ih (idx + 1) j cache saved hlt]
      have : j - idx = (j - (idx + 1)) + 1 := by omega
      rw [this, List.drop_succ_cons]

theorem pageAppends_irrel :
    ∀ (users : List Json) (idx j j' : Nat), j ≤ idx → j' ≤ idx →
      pageAppends users idx j = pageAppends users idx j' := by
  intro users
  induction users with
  | nil => intro idx j j' _ _; rfl
  | cons u rest ih =>
    intro idx j j' hj hj'
    rw [pageAppends, pageAppends, if_neg (Nat.not_lt.mpr hj), if_neg (Nat.not_lt.mpr hj')]
    cases extract_user_id u with
    | none => exact ih (idx + 1) j j' (Nat.le_succ_of_le hj) (Nat.le_succ_of_le hj')
    | some fid =>
      simp only []
      rw [ih (idx + 1) j j' (Nat.le_succ_of_le hj) (Nat.le_succ_of_le hj')]

theorem runLoop_appends (cfg : PCfg) (env : TimeEnv) (w : World) :
    ∀ (fuel offset idx0 : Nat) (cache : Cache) (saved : PState),
      Option.map (fun r : List Ev × Cache × PState => appendsOf r.1)
        (runLoop cfg env w fuel offset idx0 cache saved) =
      appendsFrom cfg w fuel offset idx0 := by
  intro fuel
  induction fuel with
  | zero => intro offset idx0 cache saved; rfl
  | succ fuel ih =>
    intro offset idx0 cache saved
    rw [runLoop, appendsFrom]
    by_cases hemp : (extract_users (w.directoryPayload offset)).isEmpty
    · rw [if_pos hemp, if_pos hemp]
      rfl
    · rw [if_neg hemp, if_neg hemp]
      simp only []
      have hrec := ih (offset + cfg.directory_limit) 0
        (pageRun cfg env w (extract_users (w.directoryPayload offset))
          0 idx0 cache saved offset).2.1
        { offset := offset + cfg.directory_limit, index_in_page := 0,
          limit := (pageRun cfg env w (extract_users (w.directoryPayload offset))
            0 idx0 cache saved offset).2.2.limit }
      rcases hx : runLoop cfg env w fuel (offset + cfg.directory_limit) 0
          (pageRun cfg env w (extract_users (w.directoryPayload offset))
            0 idx0 cache saved offset).2.1
          { offset := offset + cfg.directory_limit, index_in_page := 0,
            limit := (pageRun cfg env w (extract_users (w.directoryPayload offset))
              0 idx0 cache saved offset).2.2.limit } with _ | r2
      · rw [hx] at hrec
        rw [← hrec]
        rfl
      · rw [hx] at hrec
        rw [← hrec]
        dsimp only [Option.map]
        rw [appendsOf_append, appendsOf_pageRun]
        rfl

theorem appendsFrom_mono (cfg : PCfg) (w : World) :
    ∀ (fuel offset idx0 : Nat) (x : List Int),
      appendsFrom cfg w fuel offset idx0 = some x →
      appendsFrom cfg w (fuel + 1) offset idx0 = some x := by
  intro fuel
  induction fuel with
  | zero => intro offset idx0 x h; cases h
  | succ fuel ih =>
    intro offset idx0 x h
    rw [appendsFrom] at h
    rw [appendsFrom]
    by_cases hemp : (extract_users (w.directoryPayload offset)).isEmpty
    · rw [if_pos hemp] at h ⊢
      exact h
    · rw [if_neg hemp] at h ⊢
      rcases hx : appendsFrom cfg w fuel (offset + cfg.directory_limit) 0 with _ | rest
      · rw [hx] at h; cases h
      · rw [hx] at h
        rw [ih (offset + cfg.directory_limit) 0 rest hx]
        exact h

theorem lastSaved_nil (s0 : PState) : lastSaved [] s0 = s0 := rfl

theorem inflight_nil : inflight [] = [] := rfl

/-- Cutting the trace of one page anywhere: the persisted cursor at the cut
still points into the current page, at most one appended record (the
in-flight entity) is not yet covered by it, and replaying the page from the
persisted index reproduces exactly the uncovered append (if any) followed
by the appends of the uncut remainder. -/
theorem pageRun_cut (cfg : PCfg) (env : TimeEnv) (w : World) (offset : Nat) :
    ∀ (users : List Json) (idx idx0 : Nat) (cache : Cache) (saved : PState),
      idx0 ≤ idx → saved.offset = offset → saved.index_in_page = idx →
      ∀ Pp Qp, (pageRun cfg env w users idx idx0 cache saved offset).1 = Pp ++ Qp →
        (lastSaved Pp saved).offset = offset ∧
        idx ≤ (lastSaved Pp saved).index_in_page ∧
        (inflight Pp).length ≤ 1 ∧
        pageAppends users idx (lastSaved Pp saved).index_in_page =
          inflight Pp ++ appendsOf Qp := by
  intro users
  induction users with
  | nil =>
    intro idx idx0 cache saved hle hoff hidx Pp Qp hcut
    obtain ⟨h1, h2⟩ := List.append_eq_nil.mp hcut.symm
    subst h1
    subst h2
    exact ⟨hoff, le_of_eq hidx.symm, by simp [inflight_nil], rfl⟩
  | cons u rest ih =>
    intro idx idx0 cache saved hle hoff hidx Pp Qp hcut
    by_cases hPp : Pp = []
    · subst hPp
      rw [List.nil_append] at hcut
      refine ⟨hoff, le_of_eq hidx.symm, by simp [inflight_nil], ?_⟩
      rw [lastSaved_nil, hidx, ← hcut, appendsOf_pageRun, inflight_nil, List.nil_append]
      exact pageAppends_irrel (u :: rest) idx idx idx0 (le_refl idx) hle
    · rw [pageRun, if_neg (Nat.not_lt.mpr hle)] at hcut
      rcases hid : extract_user_id u with _ | fid
      · rw [hid] at hcut
        dsimp only [] at hcut
        rcases Pp with _ | ⟨p0, Pp'⟩
        · exact absurd rfl hPp
        · rw [List.cons_append] at hcut
          injection hcut with hhead htail
          obtain rfl : p0 = Ev.cursorSave { saved with index_in_page := idx + 1 } :=
            hhead.symm
          obtain ⟨c1, c2, c3, c4⟩ := ih (idx + 1) idx0 cache
            { saved with index_in_page := idx + 1 }
            (Nat.le_succ_of_le hle) hoff rfl Pp' Qp htail
          rw [lastSaved_cursorSave, inflight_cursorSave]
          refine ⟨c1, Nat.le_of_succ_le c2, c3, ?_⟩
          rw [pageAppends, if_pos (Nat.lt_of_succ_le c2)]
          exact c4
      · rw [hid] at hcut
        dsimp only [] at hcut
        obtain ⟨bevs, ids, revs, heshape, hse⟩ := entityEvents_shape cfg env w cache fid
        rw [heshape, List.append_assoc, List.singleton_append] at hcut
        have happrest : appendsOf (pageRun cfg env w rest (idx + 1) idx0
            (entityEvents cfg env w cache fid).2
            { offset := offset, index_in_page := idx + 1,
              limit := some (Json.int (Int.ofNat cfg.directory_limit)) } offset).1 =
            pageAppends rest (idx + 1) idx := by
          rw [appendsOf_pageRun]
          exact pageAppends_irrel rest (idx + 1) idx0 idx
            (Nat.le_succ_of_le hle) (Nat.le_succ idx)
        rcases List.append_eq_append_iff.mp hcut.symm with ⟨M, hM1, hM2⟩ | ⟨c', hc1, hc2⟩
        · -- cut inside the batch side effects, before the append
          have hsePp : ∀ e ∈ Pp, isSideEffect e = true := by
            intro e he
            exact hse e (by rw [hM1]; exact List.mem_append_left M he)
          have hseM : ∀ e ∈ M, isSideEffect e = true := by
            intro e he
            exact hse e (by rw [hM1]; exact List.mem_append_right Pp he)
          rw [lastSaved_sideEffects Pp hsePp saved]
          have hinf : inflight Pp = [] := inflight_fold_sideEffects Pp hsePp []
          rw [hinf]
          refine ⟨hoff, le_of_eq hidx.symm, by simp, ?_⟩
          rw [hidx, pageAppends, if_neg (Nat.lt_irrefl idx), hid, hM2,
            appendsOf_append, appendsOf_sideEffects M hseM]
          show fid :: pageAppends rest (idx + 1) idx =
            [] ++ ([] ++ (fid :: appendsOf (pageRun cfg env w rest (idx + 1) idx0
              (entityEvents cfg env w cache fid).2
              { offset := offset, index_in_page := idx + 1,
                limit := some (Json.int (Int.ofNat cfg.directory_limit)) } offset).1))
          rw [List.nil_append, List.nil_append, happrest]
        · rcases c' with _ | ⟨e0, c''⟩
          · -- cut exactly between the side effects and the append
            rw [List.append_nil] at hc1
            rw [hc1, lastSaved_sideEffects bevs hse saved]
            have hinf : inflight bevs = [] := inflight_fold_sideEffects bevs hse []
            rw [hinf]
            refine ⟨hoff, le_of_eq hidx.symm, by simp, ?_⟩
            rw [List.nil_append] at hc2
            rw [hidx, pageAppends, if_neg (Nat.lt_irrefl idx), hid, ← hc2]
            show fid :: pageAppends rest (idx + 1) idx =
              [] ++ (fid :: appendsOf (pageRun cfg env w rest (idx + 1) idx0
                (entityEvents cfg env w cache fid).2
                { offset := offset, index_in_page := idx + 1,
                  limit := some (Json.int (Int.ofNat cfg.directory_limit)) } offset).1)
            rw [List.nil_append, happrest]
          · injection hc2 with he0 hc3
            obtain rfl : e0 = Ev.logAppend fid ids revs := he0.symm
            rcases c'' with _ | ⟨e1, Pp''⟩
            · -- cut between the append and its cursor save: the in-flight entity
              have hlast : lastSaved (bevs ++ [Ev.logAppend fid ids revs]) saved = saved := by
                rw [lastSaved_append, lastSaved_sideEffects bevs hse saved]
                rfl
              rw [hc1, hlast]
              have hinf : inflight (bevs ++ [Ev.logAppend fid ids revs]) = [fid] := by
                unfold inflight
                rw [inflight_fold_append, inflight_fold_sideEffects bevs hse []]
                rfl
              rw [hinf]
              refine ⟨hoff, le_of_eq hidx.symm, by simp, ?_⟩
              have hc3 := hc3.trans (List.nil_append Qp)
              rw [hidx, pageAppends, if_neg (Nat.lt_irrefl idx), hid, ← hc3]
              show fid :: pageAppends rest (idx + 1) idx =
                [fid] ++ appendsOf (pageRun cfg env w rest (idx + 1) idx0
                  (entityEvents cfg env w cache fid).2
                  { offset := offset, index_in_page := idx + 1,
                    limit := some (Json.int (Int.ofNat cfg.directory_limit)) } offset).1
              rw [List.singleton_append, happrest]
            · -- cut after this entity's cursor save: recurse into the page tail
              injection hc3 with he1 hc4
              have he1x : e1 = Ev.cursorSave
                  ⟨offset, idx + 1, some (Json.int (Int.ofNat cfg.directory_limit))⟩ :=
                he1.symm
              subst he1x
              subst hc1
              obtain ⟨c1, c2, c3, c4⟩ := ih (idx + 1) idx0
                (entityEvents cfg env w cache fid).2
                { offset := offset, index_in_page := idx + 1,
                  limit := some (Json.int (Int.ofNat cfg.directory_limit)) }
                (Nat.le_succ_of_le hle) rfl rfl Pp'' Qp hc4
              have hsplit : bevs ++ Ev.logAppend fid ids revs :: Ev.cursorSave
                  { offset := offset, index_in_page := idx + 1,
                    limit := some (Json.int (Int.ofNat cfg.directory_limit)) } :: Pp'' =
                  (bevs ++ [Ev.logAppend fid ids revs]) ++ Ev.cursorSave
                  { offset := offset, index_in_page := idx + 1,
                    limit := some (Json.int (Int.ofNat cfg.directory_limit)) } :: Pp'' := by
                rw [List.append_assoc, List.singleton_append]
              rw [hsplit, inflight_after_save, lastSaved_append, lastSaved_cursorSave]
              refine ⟨c1, Nat.le_of_succ_le c2, c3, ?_⟩
              rw [pageAppends, if_pos (Nat.lt_of_succ_le c2)]
              exact c4

/-- Cutting a full run's trace anywhere: at most one appended record is not
covered by the persisted cursor, and the cache-independent replay from the
persisted cursor yields exactly that in-flight append (if any) followed by
the appends of the uncut remainder. -/
theorem runLoop_cut (cfg : PCfg) (env : TimeEnv) (w : World) :
    ∀ (fuel offset idx0 : Nat) (cache : Cache) (saved : PState)
      (r : List Ev × Cache × PState),
      runLoop cfg env w fuel offset idx0 cache saved = some r →
      saved.offset = offset → saved.index_in_page = idx0 →
      ∀ Pp Qp, r.1 = Pp ++ Qp →
        (inflight Pp).length ≤ 1 ∧
        appendsFrom cfg w fuel (lastSaved Pp saved).offset
          (lastSaved Pp saved).index_in_page = some (inflight Pp ++ appendsOf Qp) := by
  intro fuel
  induction fuel with
  | zero => intro offset idx0 cache saved r hrun; cases hrun
  | succ fuel ih =>
    intro offset idx0 cache saved r hrun hoff hidx Pp Qp hcut
    rw [runLoop] at hrun
    by_cases hemp : (extract_users (w.directoryPayload offset)).isEmpty
    · rw [if_pos hemp] at hrun
      injection hrun with hrun
      rw [← hrun] at hcut
      obtain ⟨h1, h2⟩ := List.append_eq_nil.mp hcut.symm
      subst h1
      subst h2
      refine ⟨by simp [inflight_nil], ?_⟩
      rw [lastSaved_nil, hoff, hidx, appendsFrom, if_pos hemp]
      rfl
    · rw [if_neg hemp] at hrun
      simp only [] at hrun
      rcases hx : runLoop cfg env w fuel (offset + cfg.directory_limit) 0
          (pageRun cfg env w (extract_users (w.directoryPayload offset))
            0 idx0 cache saved offset).2.1
          { offset := offset + cfg.directory_limit, index_in_page := 0,
            limit := (pageRun cfg env w (extract_users (w.directoryPayload offset))
              0 idx0 cache saved offset).2.2.limit } with _ | r2
      · rw [hx] at hrun; cases hrun
      · rw [hx] at hrun
        injection hrun with hrun
        rw [← hrun] at hcut
        have hinner : appendsFrom cfg w fuel (offset + cfg.directory_limit) 0 =
            some (appendsOf r2.1) := by
          have hmap := runLoop_appends cfg env w fuel (offset + cfg.directory_limit) 0
            (pageRun cfg env w (extract_users (w.directoryPayload offset))
              0 idx0 cache saved offset).2.1
            { offset := offset + cfg.directory_limit, index_in_page := 0,
              limit := (pageRun cfg env w (extract_users (w.directoryPayload offset))
                0 idx0 cache saved offset).2.2.limit }
          rw [hx] at hmap
          exact hmap.symm
        have hpskip : pageRun cfg env w (extract_users (w.directoryPayload offset))
            0 idx0 cache saved offset =
            pageRun cfg env w ((extract_users (w.directoryPayload offset)).drop idx0)
              idx0 idx0 cache saved offset := by
          have := pageRun_skip cfg env w offset (extract_users (w.directoryPayload offset))
            0 idx0 cache saved (Nat.zero_le idx0)
          rw [Nat.sub_zero] at this
          exact this
        have hPAeq : ∀ j, idx0 ≤ j →
            pageAppends (extract_users (w.directoryPayload offset)) 0 j =
            pageAppends ((extract_users (w.directoryPayload offset)).drop idx0) idx0 j := by
          intro j hj
          rw [pageAppends_skip (extract_users (w.directoryPayload offset)) 0 j
            (Nat.zero_le j), Nat.sub_zero]
          rw [pageAppends_skip ((extract_users (w.directoryPayload offset)).drop idx0)
            idx0 j hj]
          rw [List.drop_drop]
          have : idx0 + (j - idx0) = j := by omega
          rw [this]
        rcases List.append_eq_append_iff.mp hcut.symm with ⟨M, hM1, hM2⟩ | ⟨c', hc1, hc2⟩
        · -- cut inside the page
          have hcutp : (pageRun cfg env w ((extract_users
              (w.directoryPayload offset)).drop idx0) idx0 idx0 cache saved offset).1 =
              Pp ++ M := by
            rw [← hpskip]
            exact hM1
          obtain ⟨c1, c2, c3, c4⟩ := pageRun_cut cfg env w offset
            ((extract_users (w.directoryPayload offset)).drop idx0) idx0 idx0 cache saved
            (le_refl idx0) hoff hidx Pp M hcutp
          refine ⟨c3, ?_⟩
          rw [c1, appendsFrom, if_neg hemp, hinner]
          rw [hPAeq (lastSaved Pp saved).index_in_page c2, c4]
          rw [hM2, appendsOf_append]
          show some ((inflight Pp ++ appendsOf M) ++ appendsOf r2.1) =
            some (inflight Pp ++ (appendsOf M ++ appendsOf r2.1))
          rw [List.append_assoc]
        · rcases c' with _ | ⟨e0, Pp'⟩
          · -- cut exactly at the page boundary save
            rw [List.append_nil] at hc1
            have hcutp : (pageRun cfg env w ((extract_users
                (w.directoryPayload offset)).drop idx0) idx0 idx0 cache saved offset).1 =
                Pp ++ [] := by
              rw [← hpskip, List.append_nil]
              exact hc1.symm
            obtain ⟨c1, c2, c3, c4⟩ := pageRun_cut cfg env w offset
              ((extract_users (w.directoryPayload offset)).drop idx0) idx0 idx0 cache saved
              (le_refl idx0) hoff hidx Pp [] hcutp
            have hc2 := hc2.trans (List.nil_append Qp)
            refine ⟨c3, ?_⟩
            rw [c1, appendsFrom, if_neg hemp, hinner]
            rw [hPAeq (lastSaved Pp saved).index_in_page c2, c4]
            rw [← hc2]
            show some ((inflight Pp ++ []) ++ appendsOf r2.1) =
              some (inflight Pp ++ appendsOf r2.1)
            rw [List.append_nil]
          · -- cut after the page boundary save: recurse into later pages
            injection hc2 with he0 hc3
            have he0x : e0 = Ev.cursorSave
                ⟨offset + cfg.directory_limit, 0,
                 (pageRun cfg env w (extract_users (w.directoryPayload offset))
                   0 idx0 cache saved offset).2.2.limit⟩ := he0.symm
            subst he0x
            subst hc1
            obtain ⟨c3, c4⟩ := ih (offset + cfg.directory_limit) 0
              (pageRun cfg env w (extract_users (w.directoryPayload offset))
                0 idx0 cache saved offset).2.1
              { offset := offset + cfg.directory_limit, index_in_page := 0,
                limit := (pageRun cfg env w (extract_users (w.directoryPayload offset))
                  0 idx0 cache saved offset).2.2.limit }
              r2 hx rfl rfl Pp' Qp hc3
            rw [inflight_after_save, lastSaved_append, lastSaved_cursorSave]
            exact ⟨c3, appendsFrom_mono cfg w fuel _ _ _ c4⟩

theorem sAA_sideEffects_front (ys : List Ev) :
    ∀ xs, (∀ e ∈ xs, isSideEffect e = true) →
      saveAfterAppend (xs ++ ys) = saveAfterAppend ys := by
  intro xs
  induction xs with
  | nil => intro _; rfl
  | cons e rest ih =>
    intro hse
    have he := hse e (List.mem_cons_self e rest)
    cases e with
    | sinkUpsert r =>
      show saveAfterAppend (rest ++ ys) = saveAfterAppend ys
      exact ih (fun x hx => hse x (List.mem_cons_of_mem _ hx))
    | cacheWrite r =>
      show saveAfterAppend (rest ++ ys) = saveAfterAppend ys
      exact ih (fun x hx => hse x (List.mem_cons_of_mem _ hx))
    | logAppend f i r => cases he
    | cursorSave st => cases he

theorem sAA_append_aux :
    ∀ (n : Nat) (xs ys : List Ev), xs.length ≤ n → saveAfterAppend xs = true →
      saveAfterAppend ys = true → saveAfterAppend (xs ++ ys) = true := by
  intro n
  induction n with
  | zero =>
    intro xs ys hlen hx hy
    rw [List.eq_nil_of_length_eq_zero (Nat.le_zero.mp hlen)]
    exact hy
  | succ n ih =>
    intro xs ys hlen hx hy
    cases xs with
    | nil => exact hy
    | cons e rest =>
      cases e with
      | sinkUpsert r =>
        show saveAfterAppend (rest ++ ys) = true
        exact ih rest ys (by simp at hlen; omega) hx hy
      | cacheWrite r =>
        show saveAfterAppend (rest ++ ys) = true
        exact ih rest ys (by simp at hlen; omega) hx hy
      | cursorSave st =>
        show saveAfterAppend (rest ++ ys) = true
        exact ih rest ys (by simp at hlen; omega) hx hy
      | logAppend f i r =>
        cases rest with
        | nil => cases hx
        | cons e2 rest2 =>
          cases e2 with
          | sinkUpsert r2 => cases hx
          | cacheWrite r2 => cases hx
          | logAppend f2 i2 r2 => cases hx
          | cursorSave st =>
            show saveAfterAppend (rest2 ++ ys) = true
            have hx2 : saveAfterAppend rest2 = true := hx
            exact ih rest2 ys (by simp at hlen; omega) hx2 hy

theorem sAA_append (xs ys : List Ev) (hx : saveAfterAppend xs = true)
    (hy : saveAfterAppend ys = true) : saveAfterAppend (xs ++ ys) = true :=
  sAA_append_aux xs.length xs ys (le_refl _) hx hy

theorem pageRun_sAA (cfg : PCfg) (env : TimeEnv) (w : World) (offset : Nat) :
    ∀ (users : List Json) (idx idx0 : Nat) (cache : Cache) (saved : PState),
      saveAfterAppend (pageRun cfg env w users idx idx0 cache saved offset).1 = true := by
  intro users
  induction users with
  | nil => intro idx idx0 cache saved; rfl
  | cons u rest ih =>
    intro idx idx0 cache saved
    rw [pageRun]
    split
    · exact ih (idx + 1) idx0 cache saved
    · split
      · show saveAfterAppend (Ev.cursorSave _ :: _) = true
        show saveAfterAppend (pageRun cfg env w rest (idx + 1) idx0 cache _ offset).1 = true
        exact ih (idx + 1) idx0 cache _
      · rename_i fid heq
        simp only []
        obtain ⟨bevs, ids, revs, heshape, hse⟩ := entityEvents_shape cfg env w cache fid
        rw [heshape, List.append_assoc, List.singleton_append]
        rw [sAA_sideEffects_front _ bevs hse]
        show saveAfterAppend (pageRun cfg env w rest (idx + 1) idx0 _ _ offset).1 = true
        exact ih (idx + 1) idx0 _ _

theorem runLoop_sAA (cfg : PCfg) (env : TimeEnv) (w : World) :
    ∀ (fuel offset idx0 : Nat) (cache : Cache) (saved : PState)
      (r : List Ev × Cache × PState),
      runLoop cfg env w fuel offset idx0 cache saved = some r →
      saveAfterAppend r.1 = true := by
  intro fuel
  induction fuel with
  | zero => intro offset idx0 cache saved r hrun; cases hrun
  | succ fuel ih =>
    intro offset idx0 cache saved r hrun
    rw [runLoop] at hrun
    by_cases hemp : (extract_users (w.directoryPayload offset)).isEmpty
    · rw [if_pos hemp] at hrun
      injection hrun with hrun
      rw [← hrun]
      rfl
    · rw [if_neg hemp] at hrun
      simp only [] at hrun
      rcases hx : runLoop cfg env w fuel (offset + cfg.directory_limit) 0
          (pageRun cfg env w (extract_users (w.directoryPayload offset))
            0 idx0 cache saved offset).2.1
          { offset := offset + cfg.directory_limit, index_in_page := 0,
            limit := (pageRun cfg env w (extract_users (w.directoryPayload offset))
              0 idx0 cache saved offset).2.2.limit } with _ | r2
      · rw [hx] at hrun; cases hrun
      · rw [hx] at hrun
        injection hrun with hrun
        rw [← hrun]
        show saveAfterAppend ((pageRun cfg env w (extract_users (w.directoryPayload offset))
          0 idx0 cache saved offset).1 ++ Ev.cursorSave _ :: r2.1) = true
        refine sAA_append _ _ (pageRun_sAA cfg env w offset _ 0 idx0 cache saved) ?_
        show saveAfterAppend r2.1 = true
        exact ih (offset + cfg.directory_limit) 0 _ _ r2 hx

theorem inflight_fold_suffix :
    ∀ (evs : List Ev) (acc : List Int),
      ∃ P0, acc ++ appendsOf evs = P0 ++ evs.foldl (fun acc e =>
        match e with
        | .cursorSave _ => []
        | .logAppend fid _ _ => acc ++ [fid]
        | _ => acc) acc := by
  intro evs
  induction evs with
  | nil => intro acc; exact ⟨[], by simp [appendsOf]⟩
  | cons e rest ih =>
    intro acc
    cases e with
    | sinkUpsert r => exact ih acc
    | cacheWrite r => exact ih acc
    | cursorSave st =>
      obtain ⟨P1, hP1⟩ := ih []
      refine ⟨acc ++ P1, ?_⟩
      show acc ++ appendsOf rest = (acc ++ P1) ++ List.foldl _ [] rest
      rw [List.append_assoc, ← hP1, List.nil_append]
    | logAppend fid i r =>
      obtain ⟨P1, hP1⟩ := ih (acc ++ [fid])
      refine ⟨P1, ?_⟩
      show acc ++ (fid :: appendsOf rest) = P1 ++ List.foldl _ (acc ++ [fid]) rest
      rw [← hP1]
      simp

theorem inflight_suffix (evs : List Ev) :
    ∃ P0, appendsOf evs = P0 ++ inflight evs := by
  obtain ⟨P0, hP0⟩ := inflight_fold_suffix evs []
  rw [List.nil_append] at hP0
  exact ⟨P0, hP0⟩

theorem crashRun_complete (cfg : PCfg) (env : TimeEnv) (w : World) (fuel : Nat) :
    ∀ (cuts : List Nat) (offset idx0 : Nat) (cache : Cache) (saved : PState) (L : List Int),
      saved.offset = offset → saved.index_in_page = idx0 →
      appendsFrom cfg w fuel offset idx0 = some L →
      ∃ CL, crashRun cfg env w fuel cuts offset idx0 cache saved = some CL ∧
        (∀ e, L.count e ≤ CL.count e) ∧
        CL.length ≤ L.length + cuts.length ∧
        (∀ e, e ∈ CL → e ∈ L) := by
  intro cuts
  induction cuts with
  | nil =>
    intro offset idx0 cache saved L hoff hidx hL
    have hmap := runLoop_appends cfg env w fuel offset idx0 cache saved
    rw [hL] at hmap
    obtain ⟨r, hr, hLr⟩ := Option.map_eq_some'.mp hmap
    refine ⟨L, ?_, fun e => le_refl _, by simp, fun e he => he⟩
    show (runLoop cfg env w fuel offset idx0 cache saved).map (fun r => appendsOf r.1) =
      some L
    rw [hr]
    dsimp only [Option.map]
    rw [hLr]
  | cons k cuts ih =>
    intro offset idx0 cache saved L hoff hidx hL
    have hmap := runLoop_appends cfg env w fuel offset idx0 cache saved
    rw [hL] at hmap
    obtain ⟨r, hr, hLr⟩ := Option.map_eq_some'.mp hmap
    have hsplit : r.1 = r.1.take k ++ r.1.drop k := (List.take_append_drop k r.1).symm
    obtain ⟨hinfl, hAF⟩ := runLoop_cut cfg env w fuel offset idx0 cache saved r hr
      hoff hidx (r.1.take k) (r.1.drop k) hsplit
    obtain ⟨CL2, hCR2, hc2, hl2, hm2⟩ := ih (lastSaved (r.1.take k) saved).offset
      (lastSaved (r.1.take k) saved).index_in_page (cacheAfter (r.1.take k) cache)
      (lastSaved (r.1.take k) saved)
      (inflight (r.1.take k) ++ appendsOf (r.1.drop k)) rfl rfl hAF
    have hLsplit : L = appendsOf (r.1.take k) ++ appendsOf (r.1.drop k) := by
      rw [← appendsOf_append, List.take_append_drop]
      exact hLr.symm
    refine ⟨appendsOf (r.1.take k) ++ CL2, ?_, ?_, ?_, ?_⟩
    · rw [crashRun, hr]
      dsimp only []
      rw [hCR2]
      dsimp only [Option.map]
    · intro e
      rw [hLsplit, List.count_append, List.count_append]
      have h1 := hc2 e
      rw [List.count_append] at h1
      omega
    · rw [hLsplit]
      have h1 := hl2
      rw [List.length_append] at h1
      simp only [List.length_append, List.length_cons]
      omega
    · intro e he
      rw [hLsplit]
      rcases List.mem_append.mp he with hpe | hce
      · exact List.mem_append.mpr (Or.inl hpe)
      · rcases List.mem_append.mp (hm2 e hce) with hinf | hdrop
        · obtain ⟨P0, hP0⟩ := inflight_suffix (r.1.take k)
          refine List.mem_append.mpr (Or.inl ?_)
          rw [hP0]
          exact List.mem_append.mpr (Or.inr hinf)
        · exact List.mem_append.mpr (Or.inr hdrop)

/-- **C1.** The progress cursor is persisted only after all of an entity's
side effects have completed — in every terminating run trace each output-log
append (which follows the entity's cache writes and sink upserts) is
immediately followed by a cursor save (`saveAfterAppend`) — and for every
sequence of interruptions (each cutting the trace after `k` events and
resuming from the persisted cursor and durable cache), the concatenated
output log contains every entity of the uninterrupted run at least once
(counts never drop), gains at most one duplicate per interruption (the
in-flight entity), and contains no entity the uninterrupted run would not
log. -/
theorem cursor_resume_safety (cfg : PCfg) (env : TimeEnv) (w : World)
    (fuel offset idx0 : Nat) (cache : Cache) (saved : PState) (L : List Int)
    (cuts : List Nat)
    (hoff : saved.offset = offset) (hidx : saved.index_in_page = idx0)
    (hL : appendsFrom cfg w fuel offset idx0 = some L) :
    (∃ r, runLoop cfg env w fuel offset idx0 cache saved = some r ∧
        appendsOf r.1 = L ∧ saveAfterAppend r.1 = true) ∧
    (∃ CL, crashRun cfg env w fuel cuts offset idx0 cache saved = some CL ∧
        (∀ e, L.count e ≤ CL.count e) ∧
        CL.length ≤ L.length + cuts.length ∧
        (∀ e, e ∈ CL → e ∈ L)) := by
  have hmap := runLoop_appends cfg env w fuel offset idx0 cache saved
  rw [hL] at hmap
  obtain ⟨r, hr, hLr⟩ := Option.map_eq_some'.mp hmap
  exact ⟨⟨r, hr, hLr, runLoop_sAA cfg env w fuel offset idx0 cache saved r hr⟩,
    crashRun_complete cfg env w fuel cuts offset idx0 cache saved L hoff hidx hL⟩

/-- Witness for C1: the concrete two-page scenario, interrupted once after
four trace events, logs entities 10 and 11 at least once each, with at most
one duplicate. -/
theorem cursor_resume_safety_witness :
    (∃ r, runLoop cfg2 tenvC wScenario 2 0 0 Cache.empty psInit = some r ∧
        appendsOf r.1 = [10, 11] ∧ saveAfterAppend r.1 = true) ∧
    (∃ CL, crashRun cfg2 tenvC wScenario 2 [4] 0 0 Cache.empty psInit = some CL ∧
        (∀ e, ([10, 11] : List Int).count e ≤ CL.count e) ∧
        CL.length ≤ ([10, 11] : List Int).length + ([4] : List Nat).length ∧
        (∀ e, e ∈ CL → e ∈ ([10, 11] : List Int))) :=
  cursor_resume_safety cfg2 tenvC wScenario 2 0 0 Cache.empty psInit [10, 11] [4]
    rfl rfl (by rfl)
